import Mathlib

/-!
Verification of the blobverb acoustic ray-tracing engine.

This file shallowly embeds the engine's worker (the ES-module web worker:
samplePoisson, randomHemisphereDirection, synthesizeRadiosityPulses,
runSimulation and the simulate message handler) together with the parts of
main.js the claims touch (createIRAudioBuffer, hannWindow, firwinBandpass and
its call-site band edges, normalizeRayRadiosityConfig), and proves or refutes
the frozen claims about them.

Modelling conventions:
- JavaScript double arithmetic is modelled as exact rational arithmetic; the
  double constant Math.PI is kept as its exact IEEE-754 value piQ.
- Math.random is an explicit stream of rationals (Rng).  The ambient
  (unseeded) generator is a stream parameter; the seedrandom library is an
  uninterpreted deterministic function of the seed string.
- The transcendental library functions Math.sqrt / Math.sin / Math.cos /
  Math.exp are an explicit record of functions (RealFns), universally
  quantified in the theorems; concrete executions instantiate them with
  stand-ins that are exact on the inputs those executions reach.
- The BVH raycasts against the room mesh and the receiver mesh are performed
  by the external three / three-mesh-bvh libraries; they are modelled as
  intersection oracles (Geom), i.e. functions from (origin, direction) to an
  optional nearest hit.
- The Knuth poisson sampler loops until the running product of uniform draws
  falls below exp(-lambda); its loop is given explicit fuel (the loop
  terminates with probability one but not on every adversarial stream).
- The engine's frequency-dependent mode (the mode the specification fixes as
  the contract) is embedded; the legacy broadband branch is not.
-/

namespace Blobverb

/-- Triple of rationals modelling THREE.Vector3. -/
structure Vec3 where
  x : ℚ
  y : ℚ
  z : ℚ
deriving DecidableEq

def vadd (a b : Vec3) : Vec3 := ⟨a.x + b.x, a.y + b.y, a.z + b.z⟩

def vsub (a b : Vec3) : Vec3 := ⟨a.x - b.x, a.y - b.y, a.z - b.z⟩

def smul (t : ℚ) (a : Vec3) : Vec3 := ⟨t * a.x, t * a.y, t * a.z⟩

def vdot (a b : Vec3) : ℚ := a.x * b.x + a.y * b.y + a.z * b.z

def cross (a b : Vec3) : Vec3 :=
  ⟨a.y * b.z - a.z * b.y, a.z * b.x - a.x * b.z, a.x * b.y - a.y * b.x⟩

/-- Squared euclidean length of a vector. -/
def normSq (a : Vec3) : ℚ := vdot a a

/-- THREE.Vector3.reflect: d - 2 (d . n) n. -/
def vreflect (d n : Vec3) : Vec3 := vsub d (smul (2 * vdot d n) n)

/-- Exact rational square root, when it exists: checks that numerator and
denominator are perfect squares. -/
def ratSqrt (q : ℚ) : Option ℚ :=
  if q < 0 then none
  else
    let n := q.num.toNat
    let d := q.den
    if Nat.sqrt n * Nat.sqrt n = n ∧ Nat.sqrt d * Nat.sqrt d = d then
      some ((Nat.sqrt n : ℚ) / (Nat.sqrt d : ℚ))
    else none

/-- Model of THREE.Vector3.normalize (divide by the length, a zero vector is
kept unchanged, matching divideScalar(length or 1)).  The model is exact
whenever the squared length is the square of a rational — which covers every
vector the concrete executions below normalize — and falls back to the
identity otherwise (no theorem in this file depends on the fallback branch). -/
def normalizeE (v : Vec3) : Vec3 :=
  match ratSqrt (normSq v) with
  | some L => if L = 0 then v else smul (1 / L) v
  | none => v

/-- Explicit stream of Math.random draws: an underlying sequence and a cursor. -/
structure Rng where
  seq : ℕ → ℚ
  idx : ℕ

def Rng.next (r : Rng) : ℚ × Rng := (r.seq r.idx, ⟨r.seq, r.idx + 1⟩)

/-- The transcendental library functions used by the worker, kept abstract. -/
structure RealFns where
  sqrtFn : ℚ → ℚ
  sinFn : ℚ → ℚ
  cosFn : ℚ → ℚ
  expFn : ℚ → ℚ

/-- Exact rational value of the IEEE-754 double Math.PI. -/
def piQ : ℚ := 884279719003555 / 281474976710656

/-- Loop body of samplePoisson (part_001 lines 32-35): keep drawing while the
product of draws stays above L, counting completed extra iterations. -/
def samplePoissonGo (L : ℚ) : ℕ → ℚ → ℕ → Rng → ℕ × Rng
  | 0, _, k, r => (k, r)
  | fuel + 1, p, k, r =>
    let u := (Rng.next r).1
    let r1 := (Rng.next r).2
    let p1 := p * u
    if L < p1 then samplePoissonGo L fuel p1 (k + 1) r1 else (k, r1)

/-- samplePoisson (part_001 lines 27-37): Knuth's multiplicative algorithm;
lambda is at most 0 gives 0; L = exp(-lambda). -/
def samplePoisson (F : RealFns) (fuel : ℕ) (lam : ℚ) (r : Rng) : ℕ × Rng :=
  if lam ≤ 0 then (0, r)
  else samplePoissonGo (F.expFn (-lam)) fuel 1 0 r

/-- Arrival record: time in seconds, signed amplitude. -/
structure Arrival where
  time : ℚ
  amplitude : ℚ
deriving DecidableEq

/-- The inner j-loop of synthesizeRadiosityPulses (part_001 lines 80-87):
each pulse draws a time jitter and then a sign. -/
def emitPulses (amp baseTime binSize : ℚ) : ℕ → Rng → List Arrival × Rng
  | 0, r => ([], r)
  | j + 1, r =>
    let u := (Rng.next r).1
    let r1 := (Rng.next r).2
    let v := (Rng.next r1).1
    let r2 := (Rng.next r1).2
    let sign : ℚ := if v < 1 / 2 then -1 else 1
    let rest := emitPulses amp baseTime binSize j r2
    (⟨baseTime + u * binSize, amp * sign⟩ :: rest.1, rest.2)

/-- Per-bin body of synthesizeRadiosityPulses (part_001 lines 72-87). -/
def synthBin (F : RealFns) (fuel : ℕ) (binSize poissonDensity : ℚ) (i : ℕ)
    (energy : ℚ) (r : Rng) : List Arrival × Rng :=
  let lam := max (energy * poissonDensity) 0
  let s := samplePoisson F fuel lam r
  let pulseCount := if s.1 = 0 then 1 else s.1
  let energyPerPulse := energy / (pulseCount : ℚ)
  let amplitude := F.sqrtFn energyPerPulse
  let baseTime := (i : ℚ) * binSize
  emitPulses amplitude baseTime binSize pulseCount s.2

/-- Bin loop of synthesizeRadiosityPulses (part_001 lines 68-88), threading the
random stream through the bins in order. -/
def synthGo (F : RealFns) (fuel : ℕ) (binSize poissonDensity minEnergy : ℚ) :
    ℕ → List ℚ → Rng → List Arrival × Rng
  | _, [], r => ([], r)
  | i, e :: rest, r =>
    if e ≤ minEnergy then synthGo F fuel binSize poissonDensity minEnergy (i + 1) rest r
    else
      let ps := synthBin F fuel binSize poissonDensity i e r
      let tail := synthGo F fuel binSize poissonDensity minEnergy (i + 1) rest ps.2
      (ps.1 ++ tail.1, tail.2)

/-- synthesizeRadiosityPulses (part_001 lines 66-90). -/
def synthesizeRadiosityPulses (F : RealFns) (fuel : ℕ) (histogram : List ℚ)
    (binSize poissonDensity minEnergy : ℚ) (r : Rng) : List Arrival × Rng :=
  synthGo F fuel binSize poissonDensity minEnergy 0 histogram r

/-- Nearest intersection as reported by the external BVH raycast: distance
along the ray, hit point, optional face normal. -/
structure Hit where
  distance : ℚ
  point : Vec3
  faceNormal : Option Vec3
deriving DecidableEq

/-- Geometry oracle: the room-mesh and receiver-mesh raycasts (performed by
the external three / three-mesh-bvh libraries) as functions from (origin,
direction) to the optional nearest hit, plus the worker-state emitter sphere
parameters set by setGeometry. -/
structure Geom where
  roomCast : Vec3 → Vec3 → Option Hit
  receiverCast : Vec3 → Vec3 → Option Hit
  emitterRadius : ℚ
  emitterPos : Vec3

/-- The rrConfig record after merging defaults with overrides
(part_001 lines 226-236). -/
structure RRConfig where
  enabled : Bool
  scatteringCoeff : ℚ
  histogramResolution : ℚ
  maxTime : ℚ
  hybridBounceThreshold : ℚ
  poissonDensity : ℚ
  minEnergyThreshold : ℚ
  diffuseGain : ℚ
deriving DecidableEq

/-- Caller-supplied rrConfig overrides; absent fields take the defaults. -/
structure RROverrides where
  enabled : Option Bool := none
  scatteringCoeff : Option ℚ := none
  histogramResolution : Option ℚ := none
  maxTime : Option ℚ := none
  hybridBounceThreshold : Option ℚ := none
  poissonDensity : Option ℚ := none
  minEnergyThreshold : Option ℚ := none
  diffuseGain : Option ℚ := none
deriving DecidableEq

/-- Spread of the default rrConfig with the caller overrides
(part_001 lines 226-236). -/
def mergeRRConfig (o : RROverrides) : RRConfig where
  enabled := o.enabled.getD true
  scatteringCoeff := o.scatteringCoeff.getD (7 / 20)
  histogramResolution := o.histogramResolution.getD (1 / 400)
  maxTime := o.maxTime.getD (7 / 2)
  hybridBounceThreshold := o.hybridBounceThreshold.getD 3
  poissonDensity := o.poissonDensity.getD 12
  minEnergyThreshold := o.minEnergyThreshold.getD (1 / 100000000)
  diffuseGain := o.diffuseGain.getD 1

/-- The worker's in-place clamping of the merged rrConfig
(part_001 lines 238-242).  Note these are clamps, not validations. -/
def normalizeWorkerRR (o : RROverrides) : RRConfig :=
  let c := mergeRRConfig o
  let hr := max (1 / 10000) c.histogramResolution
  { c with
    histogramResolution := hr
    maxTime := max hr c.maxTime
    hybridBounceThreshold := max 0 (⌊c.hybridBounceThreshold⌋ : ℚ)
    poissonDensity := max (1 / 10) c.poissonDensity
    minEnergyThreshold := max (1 / 10000000000) c.minEnergyThreshold }

/-- The simulate message payload (part_001 lines 214-224), in the
frequency-dependent mode.  Counts are integers so that out-of-range requests
remain representable; batchSize only affects progress cadence. -/
structure SimParams where
  numRays : ℤ
  maxBounces : ℤ
  absorptionCoeffs : List (ℚ × ℚ)
  seed : String
  speedOfSound : ℚ
  batchSize : ℤ
  rrOverrides : RROverrides
deriving DecidableEq

/-- Ascending sort of the absorption-map keys
(Object.keys(...).map(Number).sort, part_001 lines 253-255). -/
def freqBandsOf (coeffs : List (ℚ × ℚ)) : List ℚ :=
  List.insertionSort (fun a b : ℚ => a ≤ b) (coeffs.map Prod.fst)

/-- absorptionCoeffs lookup with the JS default (alpha or or 0). -/
def coeffOf (coeffs : List (ℚ × ℚ)) (f : ℚ) : ℚ := (coeffs.lookup f).getD 0

/-- Per-wall-hit amplitude attenuation (part_001 lines 347-351): each band's
amplitude is multiplied by (1 - alpha); the worker applies no clamp. -/
def applyAbsorption (coeffs : List (ℚ × ℚ)) (amps : List (ℚ × ℚ)) : List (ℚ × ℚ) :=
  amps.map (fun fa => (fa.1, fa.2 * (1 - coeffOf coeffs fa.1)))

/-- Appending one arrival per band on a receiver hit (part_001 lines 327-331). -/
def pushArrivals (tau : ℚ) (amps : List (ℚ × ℚ)) (arrs : List (ℚ × List Arrival)) :
    List (ℚ × List Arrival) :=
  arrs.map (fun fl => (fl.1, fl.2 ++ [⟨tau, (amps.lookup fl.1).getD 0⟩]))

/-- The diffuse energy deposited per band (part_001 line 371). -/
def diffuseEnergy (diffuseGain invD scatterW amp : ℚ) : ℚ :=
  amp * amp * diffuseGain * invD * max scatterW (1 / 1000)

/-- The clamped distance from the mesh hit point to the receiver center
(part_001 line 358). -/
def rrDistRx (F : RealFns) (emitterRadius : ℚ) (emitterPos pt : Vec3) : ℚ :=
  max (F.sqrtFn (normSq (vsub pt emitterPos)))
    (max (emitterRadius * (1 / 2)) (1 / 100))

/-- The clamped inverse-square spreading term (part_001 line 362). -/
def rrInvDist (dRx : ℚ) : ℚ := 1 / max (4 * piQ * dRx * dRx) (1 / 1000000)

/-- The per-band histogram update performed inside the radiosity block
(part_001 lines 366-376).  A negative bin index passes the JS guard but the
+= lands on an out-of-range typed-array index, leaving the bin contents
unchanged (the counter still increments); the model reflects that. -/
def depositBand (cfg : RRConfig) (scatterW invD : ℚ) (binIndex : ℤ) (amp : ℚ)
    (hist : List ℚ) : List ℚ :=
  if amp ≤ 0 then hist
  else if cfg.minEnergyThreshold < diffuseEnergy cfg.diffuseGain invD scatterW amp then
    if 0 ≤ binIndex then
      hist.set binIndex.toNat (hist.getD binIndex.toNat 0 + diffuseEnergy cfg.diffuseGain invD scatterW amp)
    else hist
  else hist

/-- The per-band contribution-counter increment of the same block. -/
def depositCount (cfg : RRConfig) (scatterW invD amp : ℚ) : ℕ :=
  if amp ≤ 0 then 0
  else if cfg.minEnergyThreshold < diffuseEnergy cfg.diffuseGain invD scatterW amp then 1
  else 0

/-- The radiosity contribution at a mesh hit (part_001 lines 356-389): the
per-band deposit into the energy histograms plus the contribution counter. -/
def radiosityStep (F : RealFns) (cfg : RRConfig) (scatterW emitterRadius : ℚ)
    (emitterPos : Vec3) (bins : ℕ) (c : ℚ) (pt : Vec3) (totalDistance : ℚ)
    (amps : List (ℚ × ℚ)) (hists : List (ℚ × List ℚ)) (contrib : ℕ) :
    List (ℚ × List ℚ) × ℕ :=
  let dRx := rrDistRx F emitterRadius emitterPos pt
  let tRx := (totalDistance + dRx) / c
  if tRx ≤ cfg.maxTime then
    let invD := rrInvDist dRx
    let binIndex : ℤ := ⌊tRx / cfg.histogramResolution⌋
    if binIndex < (bins : ℤ) then
      (hists.map (fun fh => (fh.1, depositBand cfg scatterW invD binIndex ((amps.lookup fh.1).getD 0) fh.2)),
       contrib + (hists.map (fun fh => depositCount cfg scatterW invD ((amps.lookup fh.1).getD 0))).sum)
    else (hists, contrib)
  else (hists, contrib)

/-- randomHemisphereDirection (part_001 lines 39-64): two uniforms, a tangent
frame built from the less-aligned axis, and a renormalized combination. -/
def randomHemisphereDirection (F : RealFns) (normal : Vec3) (r : Rng) : Vec3 × Rng :=
  let u1 := (Rng.next r).1
  let r1 := (Rng.next r).2
  let u2 := (Rng.next r1).1
  let r2 := (Rng.next r1).2
  let rad := F.sqrtFn u1
  let phi := 2 * piQ * u2
  let tangent :=
    if |normal.z| < |normal.x| then normalizeE ⟨-normal.y, normal.x, 0⟩
    else normalizeE ⟨0, -normal.z, normal.y⟩
  let bitangent := cross normal tangent
  let dir := normalizeE (vadd (vadd (smul (rad * F.cosFn phi) tangent)
      (smul (rad * F.sinFn phi) bitangent)) (smul (F.sqrtFn (max 0 (1 - u1))) normal))
  (dir, r2)

/-- Ray-emission direction (part_001 lines 292-296): three uniforms mapped to
the cube and then normalized. -/
def emitDirection (r : Rng) : Vec3 × Rng :=
  let u1 := (Rng.next r).1
  let r1 := (Rng.next r).2
  let u2 := (Rng.next r1).1
  let r2 := (Rng.next r1).2
  let u3 := (Rng.next r2).1
  let r3 := (Rng.next r2).2
  (normalizeE ⟨u1 * 2 - 1, u2 * 2 - 1, u3 * 2 - 1⟩, r3)

/-- Mutable state threaded through the ray loop: per-band arrival lists,
per-band histograms, the radiosity contribution counter, and the random
stream. -/
structure LoopState where
  arrs : List (ℚ × List Arrival)
  hists : List (ℚ × List ℚ)
  contrib : ℕ
  rng : Rng

/-- The bounce loop of one ray (part_001 lines 304-403), by recursion on the
remaining bounce budget; bounce is the current bounce index. -/
def bounceLoop (G : Geom) (F : RealFns) (coeffs : List (ℚ × ℚ)) (cfg : RRConfig)
    (useRR : Bool) (scatterW c : ℚ) (bins : ℕ) :
    ℕ → ℕ → Vec3 → Vec3 → ℚ → List (ℚ × ℚ) → LoopState → LoopState
  | 0, _, _, _, _, _, st => st
  | fuel + 1, bounce, o, d, totalD, amps, st =>
    let recvHit := G.receiverCast o d
    let roomHit := G.roomCast o d
    let rdist := match recvHit with | some rh => rh.distance | none => 0
    let receiverFirst : Bool :=
      match recvHit, roomHit with
      | none, _ => false
      | some _, none => true
      | some rh, some mh => decide (rh.distance < mh.distance)
    if receiverFirst && decide ((1 : ℚ) / 1000 < rdist) then
      let tau := (totalD + rdist) / c
      { st with arrs := pushArrivals tau amps st.arrs }
    else
      match roomHit with
      | none => st
      | some mh =>
        let totalD1 := totalD + mh.distance
        let amps1 := applyAbsorption coeffs amps
        let hc :=
          if useRR && decide (cfg.hybridBounceThreshold ≤ (bounce : ℚ)) && decide (0 < bins) then
            radiosityStep F cfg scatterW G.emitterRadius G.emitterPos bins c mh.point
              totalD1 amps1 st.hists st.contrib
          else (st.hists, st.contrib)
        let faceNormal := mh.faceNormal.getD ⟨0, 1, 0⟩
        let normal := normalizeE faceNormal
        let specularDir := vreflect d normal
        let sc :=
          if 0 < scatterW then randomHemisphereDirection F normal st.rng
          else (specularDir, st.rng)
        let newDir := normalizeE (vadd (smul (1 - scatterW) specularDir) (smul scatterW sc.1))
        let o1 := vadd mh.point (smul (1 / 1000) newDir)
        bounceLoop G F coeffs cfg useRR scatterW c bins fuel (bounce + 1) o1 newDir totalD1
          amps1 { arrs := st.arrs, hists := hc.1, contrib := hc.2, rng := sc.2 }

/-- One ray (part_001 lines 290-302): origin at the source, a fresh cube
direction, unit per-band amplitudes, then the bounce loop. -/
def traceRay (G : Geom) (F : RealFns) (coeffs : List (ℚ × ℚ)) (bands : List ℚ)
    (cfg : RRConfig) (useRR : Bool) (scatterW c : ℚ) (bins maxBounces : ℕ)
    (st : LoopState) : LoopState :=
  let e := emitDirection st.rng
  let amps0 := bands.map (fun f => (f, (1 : ℚ)))
  bounceLoop G F coeffs cfg useRR scatterW c bins maxBounces 0 ⟨0, 0, 0⟩ e.1 0 amps0
    { st with rng := e.2 }

/-- The ray loop over all rays, in order.  Batching only affects the progress
events, not the collected arrivals or histograms, and is not modelled. -/
def rayGo (G : Geom) (F : RealFns) (coeffs : List (ℚ × ℚ)) (bands : List ℚ)
    (cfg : RRConfig) (useRR : Bool) (scatterW c : ℚ) (bins maxBounces : ℕ) :
    ℕ → LoopState → LoopState
  | 0, st => st
  | n + 1, st =>
    rayGo G F coeffs bands cfg useRR scatterW c bins maxBounces n
      (traceRay G F coeffs bands cfg useRR scatterW c bins maxBounces st)

/-- Ascending order on arrivals, as used by the JS sort comparator
(part_001 line 446, which subtracts the two times). -/
def timeLE (a b : Arrival) : Prop := a.time ≤ b.time

instance : DecidableRel timeLE := fun a b => inferInstanceAs (Decidable (a.time ≤ b.time))

instance : IsTotal Arrival timeLE := ⟨fun a b => le_total a.time b.time⟩

instance : IsTrans Arrival timeLE := ⟨fun _ _ _ h1 h2 => le_trans h1 h2⟩

/-- Ascending-by-time sort of an arrival list. -/
def sortByTime (l : List Arrival) : List Arrival :=
  List.insertionSort timeLE l

/-- Pulse synthesis over all bands in order (part_001 lines 431-447),
threading the (restored, ambient) random stream band to band; returns the
lists with pulses appended, the late-arrival count, and the stream. -/
def synthAll (F : RealFns) (fuel : ℕ) (cfg : RRConfig) (hists : List (ℚ × List ℚ)) :
    List (ℚ × List Arrival) → Rng → List (ℚ × List Arrival) × ℕ × Rng
  | [], r => ([], 0, r)
  | (f, l) :: rest, r =>
    let hist := (hists.lookup f).getD []
    let ps := synthesizeRadiosityPulses F fuel hist cfg.histogramResolution
      cfg.poissonDensity cfg.minEnergyThreshold r
    let tail := synthAll F fuel cfg hists rest ps.2
    ((f, l ++ ps.1) :: tail.1, ps.1.length + tail.2.1, tail.2.2)

/-- The complete-message payload of the frequency-dependent mode
(part_001 lines 466-480); wall-clock statistics are not modelled. -/
structure SimResult where
  arrivalsByBand : List (ℚ × List Arrival)
  freqBands : List ℚ
  totalArrivals : ℕ
  lateArrivalCount : ℕ
  histogramBins : ℕ
  rrConfig : RRConfig
deriving DecidableEq

/-- The ray-tracing phase of runSimulation (part_001 lines 226-404): config
clamping, PRNG selection (seedrandom is installed globally only when the seed
string is truthy, line 249), and the ray loop.  seedFn is the external
seedrandom library as a deterministic seed-to-stream function; ambient is the
unseeded Math.random stream. -/
def rayPhase (G : Geom) (F : RealFns) (seedFn : String → ℕ → ℚ) (p : SimParams)
    (ambient : ℕ → ℚ) : LoopState :=
  let cfg := normalizeWorkerRR p.rrOverrides
  let useRR := cfg.enabled
  let scatterW := max 0 (min 1 cfg.scatteringCoeff)
  let bands := freqBandsOf p.absorptionCoeffs
  let bins := if useRR then (⌈cfg.maxTime / cfg.histogramResolution⌉ : ℤ).toNat else 0
  let arrs0 := bands.map (fun f => (f, ([] : List Arrival)))
  let hists0 := bands.map (fun f => (f, List.replicate bins (0 : ℚ)))
  let rng0 : Rng := if p.seed = "" then ⟨ambient, 0⟩ else ⟨seedFn p.seed, 0⟩
  rayGo G F p.absorptionCoeffs bands cfg useRR scatterW p.speedOfSound bins
    p.maxBounces.toNat p.numRays.toNat ⟨arrs0, hists0, 0, rng0⟩

/-- runSimulation (part_001 lines 213-500) in the frequency-dependent mode:
the ray phase, then — after Math.random is restored to the ambient stream
(line 426) — radiosity pulse synthesis, appending and per-band sorting, and
the complete payload.  When the radiosity tail is off the arrival lists are
delivered in collection order (there is no sort on that path). -/
def runSimulation (G : Geom) (F : RealFns) (seedFn : String → ℕ → ℚ) (fuel : ℕ)
    (p : SimParams) (ambient : ℕ → ℚ) : SimResult :=
  let cfg := normalizeWorkerRR p.rrOverrides
  let useRR := cfg.enabled
  let bands := freqBandsOf p.absorptionCoeffs
  let bins := if useRR then (⌈cfg.maxTime / cfg.histogramResolution⌉ : ℤ).toNat else 0
  let st := rayPhase G F seedFn p ambient
  let synthRng : Rng := if p.seed = "" then st.rng else ⟨ambient, 0⟩
  if useRR && decide (0 < bins) then
    let sy := synthAll F fuel cfg st.hists st.arrs synthRng
    let final := sy.1.map (fun fl => (fl.1, sortByTime fl.2))
    { arrivalsByBand := final
      freqBands := bands
      totalArrivals := (final.map (fun fl => fl.2.length)).sum
      lateArrivalCount := sy.2.1
      histogramBins := bins
      rrConfig := cfg }
  else
    { arrivalsByBand := st.arrs
      freqBands := bands
      totalArrivals := (st.arrs.map (fun fl => fl.2.length)).sum
      lateArrivalCount := 0
      histogramBins := bins
      rrConfig := cfg }

/-- The worker's reply to a simulate message. -/
inductive WorkerReply where
  | complete : SimResult → WorkerReply
  | error : String → WorkerReply
deriving DecidableEq

/-- The simulate branch of the message handler (part_001 lines 539-546): the
try/catch reports an error event only when runSimulation throws; over the
typed parameter space embedded here no statement throws, so the handler
always completes — the worker performs no parameter validation. -/
def handleSimulate (G : Geom) (F : RealFns) (seedFn : String → ℕ → ℚ) (fuel : ℕ)
    (p : SimParams) (ambient : ℕ → ℚ) : WorkerReply :=
  .complete (runSimulation G F seedFn fuel p ambient)

/-- Guarded accumulation into a sample buffer: a JS += on a negative or
out-of-range typed-array index leaves the samples unchanged. -/
def setAdd (l : List ℚ) (i : ℤ) (v : ℚ) : List ℚ :=
  if 0 ≤ i then l.set i.toNat (l.getD i.toNat 0 + v) else l

/-- Fractional-sample placement of one arrival (main.js lines 966-977). -/
def placeArrival (sampleRate : ℚ) (len : ℕ) (data : List ℚ) (a : Arrival) : List ℚ :=
  let x := a.time * sampleRate
  let base : ℤ := ⌊x⌋
  let frac : ℚ := x - (base : ℚ)
  if base < (len : ℤ) - 1 then
    setAdd (setAdd data base (a.amplitude * (1 - frac))) (base + 1) (a.amplitude * frac)
  else if base < (len : ℤ) then
    setAdd data base a.amplitude
  else data

/-- createIRAudioBuffer (main.js lines 952-985): an empty arrival list yields
a one-sample silent buffer; otherwise the duration rule, fractional
placement, and the peak-above-one safety normalization. -/
def createIRAudioBuffer (arrivals : List Arrival) (sampleRate : ℚ) : List ℚ :=
  if arrivals = [] then [0]
  else
    let maxTime := arrivals.foldl (fun m a => max m a.time) 0
    let duration := max (maxTime + 1 / 2) 1
    let len := (⌈duration * sampleRate⌉ : ℤ).toNat
    let data := arrivals.foldl (placeArrival sampleRate len) (List.replicate len 0)
    let peak := data.foldl (fun m s => max m |s|) 0
    if 1 < peak then data.map (fun s => s / peak) else data

/-- hannWindow (main.js lines 1079-1085), over any field carrying the cosine
function and the pi constant. -/
def hannWindow {K : Type} [Field K] (cosK : K → K) (piK : K) (N n : ℕ) : K :=
  1 / 2 * (1 - cosK (2 * piK * (n : K) / ((N : K) - 1)))

/-- One pre-normalization tap of firwinBandpass (main.js lines 1094-1103).
The JS center test k === 0 is exact in doubles for the tap counts used and is
rendered as the natural-number test 2n = numTaps - 1. -/
def firwinTap {K : Type} [Field K] (sinK cosK : K → K) (piK : K) (numTaps : ℕ)
    (fLow fHigh fs : K) (n : ℕ) : K :=
  let M := numTaps - 1
  let fc1 := fLow / fs
  let fc2 := fHigh / fs
  let k : K := (n : K) - (M : K) / 2
  let h : K :=
    if 2 * n = M then 2 * (fc2 - fc1)
    else (sinK (2 * piK * fc2 * k) - sinK (2 * piK * fc1 * k)) / (piK * k)
  h * hannWindow cosK piK numTaps n

/-- firwinBandpass (main.js lines 1088-1108): the windowed-sinc taps divided
by their sum (the comment in the source says: normalize kernel to unity gain
at DC). -/
def firwinBandpass {K : Type} [Field K] (sinK cosK : K → K) (piK : K) (numTaps : ℕ)
    (fLow fHigh fs : K) : List K :=
  let pre := (List.range numTaps).map (firwinTap sinK cosK piK numTaps fLow fHigh fs)
  pre.map (fun h => h / pre.sum)

/-- The band edges computed at the firwinBandpass call site
(main.js lines 1153-1156). -/
def bandEdges (sampleRate centerFreq : ℚ) : ℚ × ℚ :=
  (max (centerFreq - centerFreq / 2) 20,
   min (centerFreq + centerFreq / 2) (sampleRate / 2 - 1))

/-- The claim's kernel formula read literally: the band edges in hertz are
placed inside the sinc numerator unnormalized (h with sin(2 pi f_high k)),
while the center tap divides by the sample rate. -/
def specFirTapHz {K : Type} [Field K] (sinK cosK : K → K) (piK : K) (numTaps : ℕ)
    (fLow fHigh fs : K) (n : ℕ) : K :=
  let M := numTaps - 1
  let k : K := (n : K) - (M : K) / 2
  let h : K :=
    if 2 * n = M then 2 * (fHigh - fLow) / fs
    else (sinK (2 * piK * fHigh * k) - sinK (2 * piK * fLow * k)) / (piK * k)
  h * hannWindow cosK piK numTaps n

/-- The amended kernel formula: as the claim, but with the band edges
normalized by the sample rate inside the sinc numerator. -/
def specFirTapNorm {K : Type} [Field K] (sinK cosK : K → K) (piK : K) (numTaps : ℕ)
    (fLow fHigh fs : K) (n : ℕ) : K :=
  let M := numTaps - 1
  let k : K := (n : K) - (M : K) / 2
  let h : K :=
    if 2 * n = M then 2 * (fHigh - fLow) / fs
    else (sinK (2 * piK * (fHigh / fs) * k) - sinK (2 * piK * (fLow / fs) * k)) / (piK * k)
  h * hannWindow cosK piK numTaps n

/-- Modelled from the spec: the receiver test of the bounce loop.  The source
delegates it to the external three library (a BVH raycast against the
tessellated SphereGeometry built in createEmitterMesh, part_001 lines
178-210 and 304-321), whose implementation is not part of this repository;
section 4.D.1 of the specification describes the operation as the nearest
ray/sphere intersection, embedded here as the standard quadratic test.
sphereA, sphereB, sphereC are the coefficients of the intersection quadratic
in the ray parameter t. -/
def sphereA (d : Vec3) : ℚ := normSq d

def sphereB (o d c0 : Vec3) : ℚ := 2 * vdot d (vsub o c0)

def sphereC (o c0 : Vec3) (r : ℚ) : ℚ := normSq (vsub o c0) - r * r

/-- Modelled from the spec: existence of a forward intersection of the ray
with the sphere surface, over the reals. -/
def RaySphereMeets (o d c0 : Vec3) (r : ℚ) : Prop :=
  ∃ t : ℝ, 0 ≤ t ∧
    (sphereA d : ℝ) * t ^ 2 + (sphereB o d c0 : ℝ) * t + (sphereC o c0 r : ℝ) = 0

/-- Modelled from the spec: the executable receiver test — a forward sphere
intersection exists iff the discriminant is nonnegative and the sphere is not
strictly behind the origin (origin inside the sphere, or the center not
behind). -/
def receiverTest (o d c0 : Vec3) (r : ℚ) : Bool :=
  decide (0 ≤ sphereB o d c0 ^ 2 - 4 * sphereA d * sphereC o c0 r) &&
    (decide (sphereC o c0 r ≤ 0) || decide (sphereB o d c0 ≤ 0))

/-- Squared distance from the sphere center to the nearest point of the
forward ray (the center of closest approach restricted to the half-line):
the perpendicular foot when the center is not behind the origin, the origin
itself otherwise. -/
def closestApproachSq (o d c0 : Vec3) : ℚ :=
  let m := vdot d (vsub c0 o)
  if 0 ≤ m then normSq (vsub c0 o) - m * m / normSq d else normSq (vsub c0 o)

/-! Concrete instantiations used by the witnesses and counterexamples below.
The transcendental stand-ins are exact on every input the concrete runs
reach (only perfect-square square roots are taken on those runs). -/

/-- Stand-in library functions: exact square root on perfect squares. -/
def stubFns : RealFns :=
  ⟨fun q => (ratSqrt q).getD q, fun _ => 0, fun _ => 1, fun _ => 1 / 2⟩

/-- Stand-in for the external seedrandom stream constructor: any fixed
deterministic function of the seed works for the structural statements. -/
def stubSeed : String → ℕ → ℚ := fun _ _ => 1 / 2

/-- Oracle of a receiver enclosing the source: rays along the positive x axis
leave the receiver surface at distance 3, rays along the negative x axis at
distance 1 (a sphere of radius 2 centered one unit along x), with no room
mesh in the way. -/
def geomTwoSided : Geom where
  roomCast := fun _ _ => none
  receiverCast := fun _ d =>
    if 0 < d.x then some ⟨3, ⟨3, 0, 0⟩, none⟩
    else if d.x < 0 then some ⟨1, ⟨-1, 0, 0⟩, none⟩
    else none
  emitterRadius := 2
  emitterPos := ⟨1, 0, 0⟩

/-- Oracle of a single wall: every ray hits the room mesh at distance 5 at
the point (3, 4, 0) and never reaches the receiver directly. -/
def geomWall : Geom where
  roomCast := fun _ _ => some ⟨5, ⟨3, 4, 0⟩, none⟩
  receiverCast := fun _ _ => none
  emitterRadius := 1
  emitterPos := ⟨0, 0, 0⟩

/-- Ambient stream whose every third draw is high: each emitted ray gets the
direction (1, 0, 0). -/
def ambHi : ℕ → ℚ := fun n => if n % 3 = 0 then 3 / 4 else 1 / 2

/-- Ambient stream whose every third draw is low: each emitted ray gets the
direction (-1, 0, 0). -/
def ambLo : ℕ → ℚ := fun n => if n % 3 = 0 then 1 / 4 else 1 / 2

/-- Ambient stream sending the first ray along (1, 0, 0) and the second along
(-1, 0, 0). -/
def ambTwoRays : ℕ → ℚ :=
  fun n => if n = 0 then 3 / 4 else if n = 3 then 1 / 4 else 1 / 2

/-- Constant low ambient stream. -/
def ambQuarter : ℕ → ℚ := fun _ => 1 / 4

/-- Constant high ambient stream. -/
def ambThreeQ : ℕ → ℚ := fun _ => 3 / 4

/-- One ray, radiosity off, empty seed: the emission direction comes from the
ambient stream. -/
def paramsOneRay : SimParams where
  numRays := 1
  maxBounces := 4
  absorptionCoeffs := [(100, 0)]
  seed := ""
  speedOfSound := 343
  batchSize := 5000
  rrOverrides := { enabled := some false }

/-- Two rays, radiosity off: the two receiver hits arrive out of time order
and the worker does not sort on this path. -/
def paramsTwoRays : SimParams where
  numRays := 2
  maxBounces := 4
  absorptionCoeffs := [(100, 0)]
  seed := ""
  speedOfSound := 343
  batchSize := 5000
  rrOverrides := { enabled := some false }

/-- The two-ray request with a non-empty seed (radiosity still off). -/
def paramsSeededOff : SimParams :=
  { numRays := 2
    maxBounces := 4
    absorptionCoeffs := [(100, 0)]
    seed := "s"
    speedOfSound := 343
    batchSize := 5000
    rrOverrides := { enabled := some false } }

/-- One ray, radiosity on from bounce 0, a non-empty seed, pure specular
reflection, one-second histogram bins up to two seconds. -/
def paramsSeeded : SimParams where
  numRays := 1
  maxBounces := 1
  absorptionCoeffs := [(100, 0)]
  seed := "x"
  speedOfSound := 10
  batchSize := 5000
  rrOverrides :=
    { scatteringCoeff := some 0, histogramResolution := some 1,
      maxTime := some 2, hybridBounceThreshold := some 0 }

/-- No rays at all, radiosity on with a single one-second bin. -/
def paramsNoRays : SimParams where
  numRays := 0
  maxBounces := 1
  absorptionCoeffs := [(100, 0)]
  seed := ""
  speedOfSound := 343
  batchSize := 1
  rrOverrides := { histogramResolution := some 1, maxTime := some 1 }

/-- A request that is invalid in the claim's sense: a negative ray count, an
empty band set, and a negative histogram resolution. -/
def paramsInvalid : SimParams where
  numRays := -5
  maxBounces := 4
  absorptionCoeffs := []
  seed := ""
  speedOfSound := 343
  batchSize := 1
  rrOverrides := { histogramResolution := some (-1) }

/-- The radiosity configuration reaching the histogram-boundary input: one
second bins, a two-second horizon. -/
def cfgBoundary : RRConfig where
  enabled := true
  scatteringCoeff := 0
  histogramResolution := 1
  maxTime := 2
  hybridBounceThreshold := 0
  poissonDensity := 12
  minEnergyThreshold := 1 / 10000000000
  diffuseGain := 1

/-! Helper lemmas. -/

theorem int_toNat_numeral (n : ℕ) : (Int.toNat (no_index (OfNat.ofNat n))) = OfNat.ofNat n :=
  Int.toNat_natCast n

theorem seed_x_ne_empty : ¬ (("x" : String) = "") := by decide

theorem lookup_cons_self {β : Type} (k : ℚ) (v : β) (xs : List (ℚ × β)) :
    List.lookup k ((k, v) :: xs) = some v := by
  simp [List.lookup]

theorem lookup_cons_of_ne {β : Type} (a k : ℚ) (v : β) (xs : List (ℚ × β)) (h : a ≠ k) :
    List.lookup a ((k, v) :: xs) = List.lookup a xs := by
  simp [List.lookup, beq_false_of_ne h]

theorem applyAbsorption_iterate (coeffs : List (ℚ × ℚ)) (n : ℕ) (amps : List (ℚ × ℚ)) :
    (applyAbsorption coeffs)^[n] amps =
      amps.map (fun fa => (fa.1, fa.2 * (1 - coeffOf coeffs fa.1) ^ n)) := by
  induction n generalizing amps with
  | zero => simp
  | succ n ih =>
    rw [Function.iterate_succ_apply, ih, applyAbsorption, List.map_map]
    refine List.map_congr_left fun fa _ => ?_
    simp only [Function.comp_apply]
    rw [mul_assoc, ← pow_succ']

theorem sum_map_div {K : Type} [DivisionRing K] (l : List K) (s : K) :
    (l.map (fun h => h / s)).sum = l.sum / s := by
  induction l with
  | nil => simp
  | cons x xs ih => simp [ih, add_div]

theorem setAdd_length (l : List ℚ) (i : ℤ) (v : ℚ) : (setAdd l i v).length = l.length := by
  unfold setAdd; split <;> simp

theorem placeArrival_length (sampleRate : ℚ) (len : ℕ) (data : List ℚ) (a : Arrival) :
    (placeArrival sampleRate len data a).length = data.length := by
  simp only [placeArrival]
  split
  · rw [setAdd_length, setAdd_length]
  · split
    · rw [setAdd_length]
    · rfl

theorem foldl_placeArrival_length (sampleRate : ℚ) (len : ℕ) (arrivals : List Arrival)
    (data : List ℚ) :
    (arrivals.foldl (placeArrival sampleRate len) data).length = data.length := by
  induction arrivals generalizing data with
  | nil => rfl
  | cons a rest ih => rw [List.foldl_cons, ih, placeArrival_length]

theorem ratSqrt_spec (q L : ℚ) (h : ratSqrt q = some L) : 0 ≤ L ∧ L * L = q := by
  simp only [ratSqrt] at h
  split at h
  · simp at h
  next hq =>
    split at h
    next hc =>
      rw [Option.some.injEq] at h
      subst h
      obtain ⟨hn, hd⟩ := hc
      constructor
      · positivity
      · rw [div_mul_div_comm]
        have h1 : (Nat.sqrt q.num.toNat : ℚ) * (Nat.sqrt q.num.toNat : ℚ) =
            ((q.num.toNat : ℕ) : ℚ) := by exact_mod_cast hn
        have h2 : (Nat.sqrt q.den : ℚ) * (Nat.sqrt q.den : ℚ) = (q.den : ℚ) := by
          exact_mod_cast hd
        rw [h1, h2]
        have h0 : (0 : ℤ) ≤ q.num := Rat.num_nonneg.mpr (not_lt.mp hq)
        have h3 : ((q.num.toNat : ℕ) : ℚ) = ((q.num : ℤ) : ℚ) := by
          exact_mod_cast congrArg (fun z : ℤ => (z : ℚ)) (Int.toNat_of_nonneg h0)
        rw [h3, Rat.num_div_den]
    next => simp at h

theorem normSq_smul (t : ℚ) (v : Vec3) : normSq (smul t v) = t ^ 2 * normSq v := by
  simp only [normSq, smul, vdot]
  ring

/-- C2 counterexample: the emitted direction is not an inverse-CDF sample.
The inverse-CDF construction of the specification produces a direction whose
z coordinate is 2u - 1 for the uniform draw u feeding it, whatever the
sine/cosine/square-root implementations; the worker instead normalizes a
cube sample of three draws, so no choice among the three consumed draws
realizes that z law: with draws (1/2, 1/2, 3/4) the emitted direction is
(0, 0, 1) whose z coordinate is 1, while the candidate values 2u - 1 are 0,
0 and 1/2. -/
theorem c2_counterexample :
    ¬ ∃ zi : Fin 3, ∀ s : Rng,
        ((emitDirection s).1).z = 2 * s.seq (s.idx + (zi : ℕ)) - 1 := by
  rintro ⟨zi, h⟩
  have h0 := h ⟨fun n => if n = 2 then 3 / 4 else 1 / 2, 0⟩
  revert h0
  fin_cases zi <;>
    norm_num [emitDirection, Rng.next, normalizeE, ratSqrt, normSq, vdot, smul]

/-- C2 (amended): every emitted ray direction is the normalization of the
cube sample (2u1 - 1, 2u2 - 1, 2u3 - 1) of the three consumed uniform draws
(not the inverse-CDF construction, and not uniform on the sphere); the
normalization yields a positive multiple of the cube sample of unit squared
length whenever the squared length has a rational square root. -/
theorem c2_cube_direction :
    ∀ s : Rng,
      (emitDirection s).1 =
        normalizeE ⟨s.seq s.idx * 2 - 1, s.seq (s.idx + 1) * 2 - 1, s.seq (s.idx + 2) * 2 - 1⟩
      ∧ (emitDirection s).2.idx = s.idx + 3
      ∧ ∀ (v : Vec3) (L : ℚ), ratSqrt (normSq v) = some L → L ≠ 0 →
          normalizeE v = smul (1 / L) v ∧ normSq (normalizeE v) = 1 := by
  intro s
  refine ⟨rfl, rfl, ?_⟩
  intro v L h hL
  have hs := ratSqrt_spec (normSq v) L h
  have hnz : normalizeE v = smul (1 / L) v := by
    simp only [normalizeE, h]
    rw [if_neg hL]
  refine ⟨hnz, ?_⟩
  rw [hnz, normSq_smul, ← hs.2]
  field_simp
  ring

/-- C2 witness: the normalization clause of the theorem evaluated on the
axis-aligned cube sample (0, 0, 1/2), whose length 1/2 is rational. -/
theorem c2_witness :
    ratSqrt (normSq ⟨0, 0, 1 / 2⟩) = some (1 / 2) ∧ ((1 : ℚ) / 2) ≠ 0 ∧
      (normalizeE ⟨0, 0, 1 / 2⟩ = smul (1 / (1 / 2)) ⟨0, 0, 1 / 2⟩
        ∧ normSq (normalizeE ⟨0, 0, 1 / 2⟩) = 1) := by
  have h1 : ratSqrt (normSq ⟨0, 0, 1 / 2⟩) = some (1 / 2) := by
    norm_num [ratSqrt, normSq, vdot]
  have h2 : ((1 : ℚ) / 2) ≠ 0 := by norm_num
  exact ⟨h1, h2, (c2_cube_direction ⟨fun _ => 0, 0⟩).2.2 _ _ h1 h2⟩

/-- C3: for per-band absorption coefficients in the unit interval, n wall
hits multiply each band's amplitude by (1 - alpha) each time — which equals
max(0, 1 - alpha) there — so the amplitude after n hits is (1 - alpha)^n;
and with alpha(200) = 0.1 and alpha(10000) = 0.5 the 10 kHz amplitude equals
the 200 Hz amplitude scaled by ((1 - 0.5)/(1 - 0.1))^n.  Confirmed against
the wall-hit update applyAbsorption of the bounce loop. -/
theorem c3_per_band_attenuation :
    (∀ (coeffs amps : List (ℚ × ℚ)) (n : ℕ) (b a0 : ℚ), (b, a0) ∈ amps →
      0 ≤ coeffOf coeffs b → coeffOf coeffs b ≤ 1 →
        (b, a0 * (1 - coeffOf coeffs b) ^ n) ∈ (applyAbsorption coeffs)^[n] amps
        ∧ (1 - coeffOf coeffs b) ^ n = (max 0 (1 - coeffOf coeffs b)) ^ n)
    ∧ ∀ n : ℕ,
        (1 - coeffOf [(200, 1 / 10), (10000, 1 / 2)] 10000) ^ n =
          (1 - coeffOf [(200, 1 / 10), (10000, 1 / 2)] 200) ^ n *
            ((1 - 1 / 2) / (1 - 1 / 10) : ℚ) ^ n := by
  constructor
  · intro coeffs amps n b a0 hmem _ hle
    constructor
    · rw [applyAbsorption_iterate]
      exact List.mem_map_of_mem (fun fa => (fa.1, fa.2 * (1 - coeffOf coeffs fa.1) ^ n)) hmem
    · rw [max_eq_right (by linarith)]
  · intro n
    have h200 : coeffOf [(200, 1 / 10), (10000, 1 / 2)] 200 = 1 / 10 := by
      norm_num [coeffOf, lookup_cons_self]
    have h10k : coeffOf [(200, 1 / 10), (10000, 1 / 2)] 10000 = 1 / 2 := by
      rw [coeffOf, lookup_cons_of_ne _ _ _ _ (by norm_num), lookup_cons_self]; rfl
    rw [h200, h10k, ← mul_pow]
    norm_num

/-- C3 witness: the theorem applied to two bands with the claim's
coefficients, one of them followed for two wall hits. -/
theorem c3_witness :
    (0 : ℚ) ≤ coeffOf [(200, 1 / 10), (10000, 1 / 2)] 200
    ∧ coeffOf [(200, 1 / 10), (10000, 1 / 2)] 200 ≤ 1
    ∧ ((200 : ℚ), (1 : ℚ) * (1 - coeffOf [(200, 1 / 10), (10000, 1 / 2)] 200) ^ 2) ∈
        (applyAbsorption [(200, 1 / 10), (10000, 1 / 2)])^[2] [(200, 1), (10000, 1)] :=
  ⟨by norm_num [coeffOf, lookup_cons_self], by norm_num [coeffOf, lookup_cons_self],
    (c3_per_band_attenuation.1 [(200, 1 / 10), (10000, 1 / 2)] [(200, 1), (10000, 1)] 2 200 1
      (by norm_num) (by norm_num [coeffOf, lookup_cons_self])
      (by norm_num [coeffOf, lookup_cons_self])).1⟩

theorem lookup_map_val {β γ : Type} (g : ℚ → β → γ) (xs : List (ℚ × β)) (b : ℚ) (y : β)
    (h : xs.lookup b = some y) :
    (xs.map (fun fh => (fh.1, g fh.1 fh.2))).lookup b = some (g b y) := by
  induction xs with
  | nil => simp at h
  | cons x xs ih =>
    rcases x with ⟨k, v⟩
    by_cases hbk : b = k
    · subst hbk
      have hv := Option.some.inj ((lookup_cons_self b v xs).symm.trans h)
      rw [List.map_cons, ← hv]
      exact lookup_cons_self b (g b v) _
    · rw [lookup_cons_of_ne _ _ _ _ hbk] at h
      rw [List.map_cons, lookup_cons_of_ne _ _ _ _ hbk]
      exact ih h

/-- C8 counterexample: a simulate request with a negative ray count, an empty
band set and a negative histogram resolution is not rejected — the worker
clamps the configuration, runs zero rays, and emits a complete event, never
an error event. -/
theorem c8_counterexample :
    ¬ ∀ (G : Geom) (F : RealFns) (seedFn : String → ℕ → ℚ) (fuel : ℕ) (p : SimParams)
        (ambient : ℕ → ℚ),
        (p.numRays < 0 ∨ p.absorptionCoeffs = [] ∨
          (∃ d, p.rrOverrides.histogramResolution = some d ∧ d ≤ 0) ∨
          (∃ d t, p.rrOverrides.histogramResolution = some d ∧
            p.rrOverrides.maxTime = some t ∧ t < d) ∨
          (∃ f a, (f, a) ∈ p.absorptionCoeffs ∧ (a < 0 ∨ 1 < a))) →
        ∃ msg, handleSimulate G F seedFn fuel p ambient = .error msg := by
  intro h
  obtain ⟨msg, hmsg⟩ := h geomTwoSided stubFns stubSeed 10 paramsInvalid ambHi
    (Or.inl (by norm_num [paramsInvalid]))
  simp [handleSimulate] at hmsg

/-- C8 (amended): the worker performs no parameter validation: the simulate
handler always replies with a complete event; the rrConfig fields are clamped
(histogram resolution to at least 1e-4 s, the horizon to at least one bin,
the bounce threshold to a nonnegative integer, the poisson density to at
least 0.1, the energy threshold to at least 1e-10) rather than rejected; and
a nonpositive ray count simply runs zero rays, leaving every band's arrival
list empty. -/
theorem c8_no_validation :
    (∀ (G : Geom) (F : RealFns) (seedFn : String → ℕ → ℚ) (fuel : ℕ) (p : SimParams)
        (ambient : ℕ → ℚ),
        handleSimulate G F seedFn fuel p ambient =
          .complete (runSimulation G F seedFn fuel p ambient))
    ∧ (∀ o : RROverrides,
        (normalizeWorkerRR o).histogramResolution =
          max (1 / 10000) (mergeRRConfig o).histogramResolution
        ∧ (normalizeWorkerRR o).maxTime =
          max (max (1 / 10000) (mergeRRConfig o).histogramResolution) (mergeRRConfig o).maxTime
        ∧ (normalizeWorkerRR o).hybridBounceThreshold =
          max 0 (⌊(mergeRRConfig o).hybridBounceThreshold⌋ : ℚ)
        ∧ (normalizeWorkerRR o).poissonDensity = max (1 / 10) (mergeRRConfig o).poissonDensity
        ∧ (normalizeWorkerRR o).minEnergyThreshold =
          max (1 / 10000000000) (mergeRRConfig o).minEnergyThreshold)
    ∧ ∀ (G : Geom) (F : RealFns) (seedFn : String → ℕ → ℚ) (p : SimParams)
        (ambient : ℕ → ℚ), p.numRays ≤ 0 →
        (rayPhase G F seedFn p ambient).arrs =
          (freqBandsOf p.absorptionCoeffs).map (fun f => (f, ([] : List Arrival))) := by
  refine ⟨fun _ _ _ _ _ _ => rfl, fun o => ⟨rfl, rfl, rfl, rfl, rfl⟩, ?_⟩
  intro G F seedFn p ambient hn
  have h0 : p.numRays.toNat = 0 := Int.toNat_of_nonpos hn
  simp only [rayPhase, h0, rayGo]

/-- C8 witness: the invalid request of the counterexample indeed has a
nonpositive ray count and produces empty per-band arrival lists. -/
theorem c8_witness :
    paramsInvalid.numRays ≤ 0 ∧
      (rayPhase geomTwoSided stubFns stubSeed paramsInvalid ambHi).arrs =
        (freqBandsOf paramsInvalid.absorptionCoeffs).map (fun f => (f, ([] : List Arrival))) :=
  ⟨by norm_num [paramsInvalid],
    c8_no_validation.2.2 geomTwoSided stubFns stubSeed paramsInvalid ambHi
      (by norm_num [paramsInvalid])⟩

/-- C4 counterexample: the deposit condition of the claim is incomplete.  At
a mesh hit with travel time exactly T_max while T_max is a multiple of the
bin width, the bin index floor(tau/dt) equals ceil(T_max/dt), the JS guard
binIndex &lt; histogramBins fails, and no energy is added even though
tau &lt;= T_max, the band amplitude is positive and E exceeds the threshold. -/
theorem c4_counterexample :
    ¬ ∀ (F : RealFns) (cfg : RRConfig) (scatterW emitterRadius : ℚ) (emitterPos : Vec3)
        (bins : ℕ) (c : ℚ) (pt : Vec3) (totalD : ℚ) (amps : List (ℚ × ℚ))
        (hists : List (ℚ × List ℚ)) (contrib : ℕ) (b : ℚ) (hist : List ℚ),
        hists.lookup b = some hist →
        ((totalD + rrDistRx F emitterRadius emitterPos pt) / c ≤ cfg.maxTime
          ∧ 0 < (amps.lookup b).getD 0
          ∧ cfg.minEnergyThreshold <
              diffuseEnergy cfg.diffuseGain (rrInvDist (rrDistRx F emitterRadius emitterPos pt))
                scatterW ((amps.lookup b).getD 0)) →
        ((radiosityStep F cfg scatterW emitterRadius emitterPos bins c pt totalD amps hists
              contrib).1.lookup b).map List.sum =
          some (hist.sum +
            diffuseEnergy cfg.diffuseGain (rrInvDist (rrDistRx F emitterRadius emitterPos pt))
              scatterW ((amps.lookup b).getD 0)) := by
  intro h
  have hx := h stubFns cfgBoundary 0 1 ⟨0, 0, 0⟩ 2 5 ⟨3, 4, 0⟩ 5 [(100, 1)] [(100, [0, 0])] 0
    100 [0, 0] (lookup_cons_self 100 [0, 0] [])
    (by norm_num [rrDistRx, rrInvDist, diffuseEnergy, stubFns, cfgBoundary, ratSqrt, normSq,
      vdot, vsub, piQ, lookup_cons_self, int_toNat_numeral])
  norm_num [radiosityStep, rrDistRx, rrInvDist, diffuseEnergy, stubFns, cfgBoundary, ratSqrt,
    normSq, vdot, vsub, piQ, lookup_cons_self, int_toNat_numeral] at hx

/-- C4 (amended): at a mesh hit with radiosity enabled and bounce at least
the hybrid threshold, with d_rx, tau_rx, the spreading term and E as the
claim computes them, band b's histogram gains E in bin floor(tau_rx/dt)
exactly when tau_rx &lt;= T_max, the bin index is nonnegative and strictly
below the bin count ceil(T_max/dt), the band amplitude is positive, and E
exceeds the energy threshold; in every other case the band's histogram is
unchanged. -/
theorem c4_radiosity_deposit :
    ∀ (F : RealFns) (cfg : RRConfig) (scatterW emitterRadius : ℚ) (emitterPos : Vec3)
      (bins : ℕ) (c : ℚ) (pt : Vec3) (totalD : ℚ) (amps : List (ℚ × ℚ))
      (hists : List (ℚ × List ℚ)) (contrib : ℕ) (b : ℚ) (hist : List ℚ)
      (dRx tRx : ℚ) (bin : ℤ) (amp e : ℚ),
      dRx = rrDistRx F emitterRadius emitterPos pt →
      tRx = (totalD + dRx) / c →
      bin = ⌊tRx / cfg.histogramResolution⌋ →
      amp = (amps.lookup b).getD 0 →
      e = diffuseEnergy cfg.diffuseGain (rrInvDist dRx) scatterW amp →
      hists.lookup b = some hist →
      ((tRx ≤ cfg.maxTime ∧ bin < (bins : ℤ) ∧ 0 ≤ bin ∧ 0 < amp ∧ cfg.minEnergyThreshold < e →
          (radiosityStep F cfg scatterW emitterRadius emitterPos bins c pt totalD amps hists
              contrib).1.lookup b =
            some (hist.set bin.toNat (hist.getD bin.toNat 0 + e)))
        ∧ (¬(tRx ≤ cfg.maxTime ∧ bin < (bins : ℤ) ∧ 0 ≤ bin ∧ 0 < amp ∧
              cfg.minEnergyThreshold < e) →
          (radiosityStep F cfg scatterW emitterRadius emitterPos bins c pt totalD amps hists
              contrib).1.lookup b = some hist)) := by
  intro F cfg scatterW emitterRadius emitterPos bins c pt totalD amps hists contrib b hist
    dRx tRx bin amp e hdRx htRx hbin hamp he hlook
  subst hdRx htRx hbin hamp he
  simp only [radiosityStep]
  constructor
  · rintro ⟨h1, h2, h3, h4, h5⟩
    rw [if_pos h1, if_pos h2]
    have := lookup_map_val
      (fun f h => depositBand cfg scatterW
        (rrInvDist (rrDistRx F emitterRadius emitterPos pt))
        ⌊(totalD + rrDistRx F emitterRadius emitterPos pt) / c / cfg.histogramResolution⌋
        ((amps.lookup f).getD 0) h) hists b hist hlook
    rw [this]
    simp only [depositBand, if_neg (not_le.mpr h4), if_pos h5, if_pos h3]
  · intro hnot
    by_cases h1 : (totalD + rrDistRx F emitterRadius emitterPos pt) / c ≤ cfg.maxTime
    · rw [if_pos h1]
      by_cases h2 : ⌊(totalD + rrDistRx F emitterRadius emitterPos pt) / c /
          cfg.histogramResolution⌋ < (bins : ℤ)
      · rw [if_pos h2]
        have := lookup_map_val
          (fun f h => depositBand cfg scatterW
            (rrInvDist (rrDistRx F emitterRadius emitterPos pt))
            ⌊(totalD + rrDistRx F emitterRadius emitterPos pt) / c / cfg.histogramResolution⌋
            ((amps.lookup f).getD 0) h) hists b hist hlook
        rw [this]
        simp only [depositBand]
        by_cases h4 : (amps.lookup b).getD 0 ≤ 0
        · rw [if_pos h4]
        · rw [if_neg h4]
          by_cases h5 : cfg.minEnergyThreshold <
              diffuseEnergy cfg.diffuseGain
                (rrInvDist (rrDistRx F emitterRadius emitterPos pt)) scatterW
                ((amps.lookup b).getD 0)
          · rw [if_pos h5]
            by_cases h3 : (0 : ℤ) ≤ ⌊(totalD + rrDistRx F emitterRadius emitterPos pt) / c /
                cfg.histogramResolution⌋
            · exact absurd ⟨h1, h2, h3, not_le.mp h4, h5⟩ hnot
            · rw [if_neg h3]
          · rw [if_neg h5]
      · rw [if_neg h2]; exact hlook
    · rw [if_neg h1]
      exact hlook

/-- C4 witness: the same hit one histogram bin earlier (travel time one
second, horizon two seconds) deposits E into bin 1 of the band's histogram. -/
theorem c4_witness :
    (5 : ℚ) = rrDistRx stubFns 1 ⟨0, 0, 0⟩ ⟨3, 4, 0⟩
    ∧ (1 : ℚ) = (5 + 5) / 10
    ∧ (1 : ℤ) = ⌊(1 : ℚ) / cfgBoundary.histogramResolution⌋
    ∧ (1 : ℚ) = (([((100 : ℚ), (1 : ℚ))].lookup (100 : ℚ)).getD 0)
    ∧ ((1 : ℚ) ≤ cfgBoundary.maxTime ∧ (1 : ℤ) < ((2 : ℕ) : ℤ) ∧ (0 : ℤ) ≤ (1 : ℤ)
        ∧ (0 : ℚ) < 1
        ∧ cfgBoundary.minEnergyThreshold < diffuseEnergy cfgBoundary.diffuseGain (rrInvDist 5) 0 1)
    ∧ (radiosityStep stubFns cfgBoundary 0 1 ⟨0, 0, 0⟩ 2 10 ⟨3, 4, 0⟩ 5 [(100, 1)]
          [(100, [0, 0])] 0).1.lookup 100 =
        some (([0, 0] : List ℚ).set (1 : ℤ).toNat
          (([0, 0] : List ℚ).getD (1 : ℤ).toNat 0 + diffuseEnergy cfgBoundary.diffuseGain (rrInvDist 5) 0 1)) := by
  have e1 : (5 : ℚ) = rrDistRx stubFns 1 ⟨0, 0, 0⟩ ⟨3, 4, 0⟩ := by
    norm_num [rrDistRx, stubFns, ratSqrt, normSq, vdot, vsub, int_toNat_numeral]
  have e2 : (1 : ℚ) = (5 + 5 : ℚ) / 10 := by norm_num
  have e3 : (1 : ℤ) = ⌊(1 : ℚ) / cfgBoundary.histogramResolution⌋ := by
    norm_num [cfgBoundary]
  have e4 : (1 : ℚ) = (([((100 : ℚ), (1 : ℚ))].lookup (100 : ℚ)).getD 0) := by
    rw [lookup_cons_self]; rfl
  have hcond : (1 : ℚ) ≤ cfgBoundary.maxTime ∧ (1 : ℤ) < ((2 : ℕ) : ℤ) ∧ (0 : ℤ) ≤ (1 : ℤ)
      ∧ (0 : ℚ) < 1
      ∧ cfgBoundary.minEnergyThreshold < diffuseEnergy cfgBoundary.diffuseGain (rrInvDist 5) 0 1 := by
    norm_num [cfgBoundary, diffuseEnergy, rrInvDist, piQ]
  have happ := (c4_radiosity_deposit stubFns cfgBoundary 0 1 ⟨0, 0, 0⟩ 2 10 ⟨3, 4, 0⟩ 5
    [(100, 1)] [(100, [0, 0])] 0 100 [0, 0] 5 1 1 1
    (diffuseEnergy cfgBoundary.diffuseGain (rrInvDist 5) 0 1)
    e1 e2 e3 e4 rfl (lookup_cons_self 100 [0, 0] [])).1 hcond
  exact ⟨e1, e2, e3, e4, hcond, happ⟩

theorem emitPulses_length (amp base bs : ℚ) :
    ∀ (k : ℕ) (r : Rng), ((emitPulses amp base bs k r).1).length = k := by
  intro k
  induction k with
  | zero => intro r; rfl
  | succ j ih => intro r; simp only [emitPulses, List.length_cons, ih]

theorem emitPulses_seq (amp base bs : ℚ) :
    ∀ (k : ℕ) (r : Rng), ((emitPulses amp base bs k r).2).seq = r.seq := by
  intro k
  induction k with
  | zero => intro r; rfl
  | succ j ih => intro r; simp only [emitPulses, ih, Rng.next]

theorem samplePoissonGo_seq (L : ℚ) :
    ∀ (fuel : ℕ) (p : ℚ) (k : ℕ) (r : Rng), ((samplePoissonGo L fuel p k r).2).seq = r.seq := by
  intro fuel
  induction fuel with
  | zero => intro p k r; rfl
  | succ f ih =>
    intro p k r
    simp only [samplePoissonGo, Rng.next]
    split
    · rw [ih]
    · rfl

theorem samplePoisson_seq (F : RealFns) (fuel : ℕ) (lam : ℚ) (r : Rng) :
    ((samplePoisson F fuel lam r).2).seq = r.seq := by
  simp only [samplePoisson]
  split
  · rfl
  · rw [samplePoissonGo_seq]

theorem synthBin_seq (F : RealFns) (fuel : ℕ) (bs pd : ℚ) (i : ℕ) (e : ℚ) (r : Rng) :
    ((synthBin F fuel bs pd i e r).2).seq = r.seq := by
  simp only [synthBin]
  rw [emitPulses_seq, samplePoisson_seq]

theorem emitPulses_mem (amp base bs : ℚ) (hbs : 0 < bs) :
    ∀ (k : ℕ) (r : Rng), (∀ n, 0 ≤ r.seq n ∧ r.seq n < 1) →
      ∀ p ∈ (emitPulses amp base bs k r).1,
        base ≤ p.time ∧ p.time < base + bs ∧ (p.amplitude = amp ∨ p.amplitude = -amp) := by
  intro k
  induction k with
  | zero => intro r _ p hp; simp [emitPulses] at hp
  | succ j ih =>
    intro r hb p hp
    simp only [emitPulses, Rng.next] at hp
    rcases List.mem_cons.mp hp with h | h
    · subst h
      have h0 := hb r.idx
      refine ⟨by nlinarith [h0.1, h0.2], by nlinarith [h0.1, h0.2], ?_⟩
      dsimp only
      split
      · right; ring
      · left; ring
    · exact ih ⟨r.seq, r.idx + 2⟩ hb p h

theorem synthBin_count (F : RealFns) (fuel : ℕ) (bs pd : ℚ) (i : ℕ) (e : ℚ) (r : Rng) :
    ((synthBin F fuel bs pd i e r).1).length =
      max 1 (samplePoisson F fuel (max (e * pd) 0) r).1 := by
  simp only [synthBin]
  rw [emitPulses_length]
  rcases Nat.eq_zero_or_pos (samplePoisson F fuel (max (e * pd) 0) r).1 with h | h
  · simp [h]
  · rw [if_neg (Nat.pos_iff_ne_zero.mp h)]
    exact (Nat.max_eq_right h).symm

theorem synthBin_mem (F : RealFns) (fuel : ℕ) (bs pd : ℚ) (hbs : 0 < bs) (i : ℕ) (e : ℚ)
    (r : Rng) (hb : ∀ n, 0 ≤ r.seq n ∧ r.seq n < 1) :
    ∀ p ∈ (synthBin F fuel bs pd i e r).1,
      (i : ℚ) * bs ≤ p.time ∧ p.time < ((i : ℚ) + 1) * bs ∧
        ∃ k : ℕ, 1 ≤ k ∧
          (p.amplitude = F.sqrtFn (e / (k : ℚ)) ∨ p.amplitude = -(F.sqrtFn (e / (k : ℚ)))) := by
  intro p hp
  simp only [synthBin] at hp
  have hb2 : ∀ n, 0 ≤ ((samplePoisson F fuel (max (e * pd) 0) r).2).seq n ∧
      ((samplePoisson F fuel (max (e * pd) 0) r).2).seq n < 1 := by
    rw [samplePoisson_seq]; exact hb
  have hm := emitPulses_mem _ ((i : ℚ) * bs) bs hbs _ _ hb2 p hp
  have hk1 : 1 ≤ (if (samplePoisson F fuel (max (e * pd) 0) r).1 = 0 then 1
      else (samplePoisson F fuel (max (e * pd) 0) r).1) := by
    split
    · exact le_refl 1
    · omega
  refine ⟨hm.1, by linarith [hm.2.1], ?_⟩
  exact ⟨_, hk1, hm.2.2⟩

theorem synthGo_mem (F : RealFns) (fuel : ℕ) (bs pd minE : ℚ) (hbs : 0 < bs) :
    ∀ (hist : List ℚ) (i : ℕ) (r : Rng), (∀ n, 0 ≤ r.seq n ∧ r.seq n < 1) →
      ∀ p ∈ (synthGo F fuel bs pd minE i hist r).1,
        ∃ j : ℕ, j < hist.length ∧ minE < hist.getD j 0 ∧
          ((i : ℚ) + (j : ℚ)) * bs ≤ p.time ∧ p.time < ((i : ℚ) + (j : ℚ) + 1) * bs ∧
          ∃ k : ℕ, 1 ≤ k ∧
            (p.amplitude = F.sqrtFn (hist.getD j 0 / (k : ℚ))
              ∨ p.amplitude = -(F.sqrtFn (hist.getD j 0 / (k : ℚ)))) := by
  intro hist
  induction hist with
  | nil => intro i r _ p hp; simp [synthGo] at hp
  | cons eh rest ih =>
    intro i r hb p hp
    simp only [synthGo] at hp
    by_cases he : eh ≤ minE
    · rw [if_pos he] at hp
      obtain ⟨j, hj, hE, ht1, ht2, k, hk, hamp⟩ := ih (i + 1) r hb p hp
      refine ⟨j + 1, by simpa using Nat.succ_lt_succ hj, by simpa using hE, ?_, ?_, k, hk, ?_⟩
      · push_cast
        push_cast at ht1
        linarith
      · push_cast
        push_cast at ht2
        linarith
      · simpa using hamp
    · rw [if_neg he] at hp
      rcases List.mem_append.mp hp with h | h
      · have hm := synthBin_mem F fuel bs pd hbs i eh r hb p h
        refine ⟨0, by simp, by simpa using not_le.mp he, ?_, ?_, ?_⟩
        · push_cast
          linarith [hm.1]
        · push_cast
          linarith [hm.2.1]
        · simpa using hm.2.2
      · have hb2 : ∀ n, 0 ≤ ((synthBin F fuel bs pd i eh r).2).seq n ∧
            ((synthBin F fuel bs pd i eh r).2).seq n < 1 := by
          rw [synthBin_seq]; exact hb
        obtain ⟨j, hj, hE, ht1, ht2, k, hk, hamp⟩ := ih (i + 1) _ hb2 p h
        refine ⟨j + 1, by simpa using Nat.succ_lt_succ hj, by simpa using hE, ?_, ?_, k, hk, ?_⟩
        · push_cast
          push_cast at ht1
          linarith
        · push_cast
          push_cast at ht2
          linarith
        · simpa using hamp

theorem emitPulses_amp (amp base bs : ℚ) :
    ∀ (k : ℕ) (r : Rng), ∀ p ∈ (emitPulses amp base bs k r).1,
      p.amplitude = amp ∨ p.amplitude = -amp := by
  intro k
  induction k with
  | zero => intro r p hp; simp [emitPulses] at hp
  | succ j ih =>
    intro r p hp
    simp only [emitPulses, Rng.next] at hp
    rcases List.mem_cons.mp hp with h | h
    · subst h
      dsimp only
      split
      · right; ring
      · left; ring
    · exact ih _ p h

/-- Every pulse of one bin carries amplitude plus or minus the square root
of the bin energy divided by the number of pulses actually emitted for that
bin. -/
theorem synthBin_amp (F : RealFns) (fuel : ℕ) (bs pd : ℚ) (i : ℕ) (e : ℚ) (r : Rng) :
    ∀ p ∈ (synthBin F fuel bs pd i e r).1,
      p.amplitude = F.sqrtFn (e / (((synthBin F fuel bs pd i e r).1).length : ℚ))
      ∨ p.amplitude = -(F.sqrtFn (e / (((synthBin F fuel bs pd i e r).1).length : ℚ))) := by
  intro p hp
  have hlen : ((synthBin F fuel bs pd i e r).1).length =
      (if (samplePoisson F fuel (max (e * pd) 0) r).1 = 0 then 1
        else (samplePoisson F fuel (max (e * pd) 0) r).1) := by
    simp only [synthBin]
    exact emitPulses_length _ _ _ _ _
  rw [hlen]
  simp only [synthBin] at hp
  exact emitPulses_amp _ _ _ _ _ p hp

/-- The pulses of the full synthesis that fall in bin a's time window are
exactly the block emitted for bin a: a synthBin run at the random state the
bin loop reaches for that bin.  (The bins' time windows are disjoint, so the
window recovers the block.) -/
theorem synthGo_filter (F : RealFns) (fuel : ℕ) (bs pd minE : ℚ) (hbs : 0 < bs) :
    ∀ (hist : List ℚ) (i : ℕ) (r : Rng), (∀ n, 0 ≤ r.seq n ∧ r.seq n < 1) →
      ∀ (j a : ℕ), a = i + j → j < hist.length → minE < hist.getD j 0 →
        ∃ r' : Rng, (∀ n, 0 ≤ r'.seq n ∧ r'.seq n < 1) ∧
          ((synthGo F fuel bs pd minE i hist r).1.filter
              (fun q => decide ((a : ℚ) * bs ≤ q.time ∧ q.time < ((a : ℚ) + 1) * bs))) =
            (synthBin F fuel bs pd a (hist.getD j 0) r').1 := by
  intro hist
  induction hist with
  | nil => intro i r _ j a _ hj _; simp at hj
  | cons e rest ih =>
    intro i r hb j a ha hj hE
    cases j with
    | zero =>
      have ha0 : a = i := by omega
      subst ha0
      rw [List.getD_cons_zero] at hE ⊢
      have he : ¬ e ≤ minE := not_le.mpr hE
      simp only [synthGo, if_neg he]
      rw [List.filter_append]
      have h1 : (synthBin F fuel bs pd a e r).1.filter
          (fun q => decide ((a : ℚ) * bs ≤ q.time ∧ q.time < ((a : ℚ) + 1) * bs)) =
          (synthBin F fuel bs pd a e r).1 := by
        rw [List.filter_eq_self]
        intro p hp
        have hm := synthBin_mem F fuel bs pd hbs a e r hb p hp
        exact decide_eq_true ⟨hm.1, hm.2.1⟩
      have hb2 : ∀ n, 0 ≤ ((synthBin F fuel bs pd a e r).2).seq n ∧
          ((synthBin F fuel bs pd a e r).2).seq n < 1 := by
        rw [synthBin_seq]; exact hb
      have h2 : (synthGo F fuel bs pd minE (a + 1) rest
          ((synthBin F fuel bs pd a e r).2)).1.filter
          (fun q => decide ((a : ℚ) * bs ≤ q.time ∧ q.time < ((a : ℚ) + 1) * bs)) = [] := by
        rw [List.filter_eq_nil_iff]
        intro q hq hpred
        obtain ⟨hlow, hup⟩ := of_decide_eq_true hpred
        obtain ⟨j', _, _, ht1, _, _⟩ :=
          synthGo_mem F fuel bs pd minE hbs rest (a + 1) _ hb2 q hq
        have hc : ((a : ℚ) + 1) * bs ≤ (((a + 1 : ℕ) : ℚ) + (j' : ℚ)) * bs := by
          have hj0 : (0 : ℚ) ≤ (j' : ℚ) := Nat.cast_nonneg j'
          push_cast
          nlinarith [hbs, hj0]
        linarith
      rw [h1, h2, List.append_nil]
      exact ⟨r, hb, rfl⟩
    | succ j' =>
      have hj' : j' < rest.length := by simpa using hj
      rw [List.getD_cons_succ] at hE ⊢
      by_cases he : e ≤ minE
      · simp only [synthGo, if_pos he]
        exact ih (i + 1) r hb j' a (by omega) hj' hE
      · simp only [synthGo, if_neg he]
        rw [List.filter_append]
        have h1 : (synthBin F fuel bs pd i e r).1.filter
            (fun q => decide ((a : ℚ) * bs ≤ q.time ∧ q.time < ((a : ℚ) + 1) * bs)) = [] := by
          rw [List.filter_eq_nil_iff]
          intro q hq hpred
          obtain ⟨hlow, hup⟩ := of_decide_eq_true hpred
          have hm := synthBin_mem F fuel bs pd hbs i e r hb q hq
          have hia : (i + 1 : ℕ) ≤ a := by omega
          have hia' : ((i : ℚ) + 1) ≤ (a : ℚ) := by exact_mod_cast hia
          have hc : ((i : ℚ) + 1) * bs ≤ (a : ℚ) * bs := by nlinarith [hbs]
          linarith [hm.2.1]
        have hb2 : ∀ n, 0 ≤ ((synthBin F fuel bs pd i e r).2).seq n ∧
            ((synthBin F fuel bs pd i e r).2).seq n < 1 := by
          rw [synthBin_seq]; exact hb
        obtain ⟨r', hb', hr'⟩ := ih (i + 1) _ hb2 j' a (by omega) hj' hE
        exact ⟨r', hb', by rw [h1, List.nil_append, hr']⟩

/-- C5: pulse synthesis emits, for every histogram bin whose energy exceeds
the threshold, exactly k = max(1, poisson(E lambda_d)) pulses, each with
amplitude plus or minus sqrt(E/k) for that same emitted count k: clause one
states the count and the amplitude law of one bin's block, clause two lifts
both through the whole synthesis — every synthesized pulse lies in the time
window of an above-threshold bin j and its amplitude is plus or minus
sqrt(E_j/k_j) where k_j is the number of synthesized pulses in bin j's
window, and that window is exactly bin j's block, of size max(1,
poisson(E_j lambda_d)) at the random state the bin loop reaches — and since
the histogram has ceil(T_max/dt) bins, with the S3 parameters (dt = 2.5 ms,
1200 bins) every synthesized late arrival satisfies tau at most 3 s. -/
theorem c5_pulse_synthesis :
    (∀ (F : RealFns) (fuel : ℕ) (bs pd : ℚ) (i : ℕ) (e : ℚ) (r : Rng),
        ((synthBin F fuel bs pd i e r).1).length =
          max 1 (samplePoisson F fuel (max (e * pd) 0) r).1
        ∧ ∀ p ∈ (synthBin F fuel bs pd i e r).1,
            p.amplitude = F.sqrtFn (e / (((synthBin F fuel bs pd i e r).1).length : ℚ))
            ∨ p.amplitude = -(F.sqrtFn (e / (((synthBin F fuel bs pd i e r).1).length : ℚ))))
    ∧ (∀ (F : RealFns) (fuel : ℕ) (hist : List ℚ) (bs pd minE : ℚ) (r : Rng),
        0 < bs → (∀ n, 0 ≤ r.seq n ∧ r.seq n < 1) →
        (∀ p ∈ (synthesizeRadiosityPulses F fuel hist bs pd minE r).1,
          ∃ j : ℕ, j < hist.length ∧ minE < hist.getD j 0 ∧
            (j : ℚ) * bs ≤ p.time ∧ p.time < ((j : ℚ) + 1) * bs ∧
            (p.amplitude = F.sqrtFn (hist.getD j 0 /
                (((synthesizeRadiosityPulses F fuel hist bs pd minE r).1.filter
                  (fun q => decide ((j : ℚ) * bs ≤ q.time ∧
                    q.time < ((j : ℚ) + 1) * bs))).length : ℚ))
              ∨ p.amplitude = -(F.sqrtFn (hist.getD j 0 /
                  (((synthesizeRadiosityPulses F fuel hist bs pd minE r).1.filter
                    (fun q => decide ((j : ℚ) * bs ≤ q.time ∧
                      q.time < ((j : ℚ) + 1) * bs))).length : ℚ)))))
        ∧ ∀ j : ℕ, j < hist.length → minE < hist.getD j 0 →
            ∃ r' : Rng, (∀ n, 0 ≤ r'.seq n ∧ r'.seq n < 1) ∧
              (synthesizeRadiosityPulses F fuel hist bs pd minE r).1.filter
                  (fun q => decide ((j : ℚ) * bs ≤ q.time ∧ q.time < ((j : ℚ) + 1) * bs)) =
                (synthBin F fuel bs pd j (hist.getD j 0) r').1 ∧
              ((synthesizeRadiosityPulses F fuel hist bs pd minE r).1.filter
                  (fun q => decide ((j : ℚ) * bs ≤ q.time ∧ q.time < ((j : ℚ) + 1) * bs))).length =
                max 1 (samplePoisson F fuel (max (hist.getD j 0 * pd) 0) r').1)
    ∧ (∀ (F : RealFns) (fuel : ℕ) (hist : List ℚ) (pd minE : ℚ) (r : Rng),
        (∀ n, 0 ≤ r.seq n ∧ r.seq n < 1) → hist.length ≤ 1200 →
        ∀ p ∈ (synthesizeRadiosityPulses F fuel hist (1 / 400) pd minE r).1, p.time ≤ 3) := by
  have hmem : ∀ (F : RealFns) (fuel : ℕ) (hist : List ℚ) (bs pd minE : ℚ) (r : Rng),
      0 < bs → (∀ n, 0 ≤ r.seq n ∧ r.seq n < 1) →
      ∀ p ∈ (synthesizeRadiosityPulses F fuel hist bs pd minE r).1,
        ∃ j : ℕ, j < hist.length ∧ minE < hist.getD j 0 ∧
          (j : ℚ) * bs ≤ p.time ∧ p.time < ((j : ℚ) + 1) * bs := by
    intro F fuel hist bs pd minE r hbs hb p hp
    obtain ⟨j, hj, hE, ht1, ht2, _⟩ := synthGo_mem F fuel bs pd minE hbs hist 0 r hb p hp
    exact ⟨j, hj, hE, by simpa using ht1, by simpa using ht2⟩
  have hfil : ∀ (F : RealFns) (fuel : ℕ) (hist : List ℚ) (bs pd minE : ℚ) (r : Rng),
      0 < bs → (∀ n, 0 ≤ r.seq n ∧ r.seq n < 1) →
      ∀ j : ℕ, j < hist.length → minE < hist.getD j 0 →
        ∃ r' : Rng, (∀ n, 0 ≤ r'.seq n ∧ r'.seq n < 1) ∧
          (synthesizeRadiosityPulses F fuel hist bs pd minE r).1.filter
              (fun q => decide ((j : ℚ) * bs ≤ q.time ∧ q.time < ((j : ℚ) + 1) * bs)) =
            (synthBin F fuel bs pd j (hist.getD j 0) r').1 := by
    intro F fuel hist bs pd minE r hbs hb j hj hE
    have h := synthGo_filter F fuel bs pd minE hbs hist 0 r hb j j (by omega) hj hE
    exact h
  refine ⟨?_, ?_, ?_⟩
  · intro F fuel bs pd i e r
    exact ⟨synthBin_count F fuel bs pd i e r, synthBin_amp F fuel bs pd i e r⟩
  · intro F fuel hist bs pd minE r hbs hb
    constructor
    · intro p hp
      obtain ⟨j, hj, hE, ht1, ht2⟩ := hmem F fuel hist bs pd minE r hbs hb p hp
      obtain ⟨r', _, hr'⟩ := hfil F fuel hist bs pd minE r hbs hb j hj hE
      have hpf : p ∈ (synthesizeRadiosityPulses F fuel hist bs pd minE r).1.filter
          (fun q => decide ((j : ℚ) * bs ≤ q.time ∧ q.time < ((j : ℚ) + 1) * bs)) :=
        List.mem_filter.mpr ⟨hp, decide_eq_true ⟨ht1, ht2⟩⟩
      have hamp := synthBin_amp F fuel bs pd j (hist.getD j 0) r' p (hr' ▸ hpf)
      refine ⟨j, hj, hE, ht1, ht2, ?_⟩
      rw [hr']
      exact hamp
    · intro j hj hE
      obtain ⟨r', hb', hr'⟩ := hfil F fuel hist bs pd minE r hbs hb j hj hE
      refine ⟨r', hb', hr', ?_⟩
      rw [hr']
      exact synthBin_count F fuel bs pd j (hist.getD j 0) r'
  · intro F fuel hist pd minE r hb hlen p hp
    obtain ⟨j, hj, _, _, ht2⟩ := hmem F fuel hist (1 / 400) pd minE r (by norm_num) hb p hp
    have hj1 : (j : ℚ) + 1 ≤ 1200 := by
      have h1 : (j : ℚ) + 1 ≤ (hist.length : ℚ) := by
        have := Nat.succ_le_of_lt hj
        exact_mod_cast this
      have h2 : (hist.length : ℚ) ≤ 1200 := by exact_mod_cast hlen
      linarith
    nlinarith [ht2]

/-- C5 witness: the per-pulse clause and the per-bin block clause applied to
a one-bin histogram with energy 1 above the threshold 1/2, one-second bins,
and a constant stream. -/
theorem c5_witness :
    (0 : ℚ) < 1 ∧ (∀ n : ℕ, 0 ≤ (Rng.mk (fun _ => 1 / 2) 0).seq n
      ∧ (Rng.mk (fun _ => 1 / 2) 0).seq n < 1) ∧
    ((∀ p ∈ (synthesizeRadiosityPulses stubFns 5 [1] 1 12 (1 / 2) ⟨fun _ => 1 / 2, 0⟩).1,
        ∃ j : ℕ, j < ([1] : List ℚ).length ∧ (1 : ℚ) / 2 < ([1] : List ℚ).getD j 0 ∧
          (j : ℚ) * 1 ≤ p.time ∧ p.time < ((j : ℚ) + 1) * 1 ∧
          (p.amplitude = stubFns.sqrtFn (([1] : List ℚ).getD j 0 /
              (((synthesizeRadiosityPulses stubFns 5 [1] 1 12 (1 / 2)
                  ⟨fun _ => 1 / 2, 0⟩).1.filter
                (fun q => decide ((j : ℚ) * 1 ≤ q.time ∧
                  q.time < ((j : ℚ) + 1) * 1))).length : ℚ))
            ∨ p.amplitude = -(stubFns.sqrtFn (([1] : List ℚ).getD j 0 /
                (((synthesizeRadiosityPulses stubFns 5 [1] 1 12 (1 / 2)
                    ⟨fun _ => 1 / 2, 0⟩).1.filter
                  (fun q => decide ((j : ℚ) * 1 ≤ q.time ∧
                    q.time < ((j : ℚ) + 1) * 1))).length : ℚ)))))
      ∧ ∀ j : ℕ, j < ([1] : List ℚ).length → (1 : ℚ) / 2 < ([1] : List ℚ).getD j 0 →
          ∃ r' : Rng, (∀ n, 0 ≤ r'.seq n ∧ r'.seq n < 1) ∧
            (synthesizeRadiosityPulses stubFns 5 [1] 1 12 (1 / 2)
                ⟨fun _ => 1 / 2, 0⟩).1.filter
                (fun q => decide ((j : ℚ) * 1 ≤ q.time ∧ q.time < ((j : ℚ) + 1) * 1)) =
              (synthBin stubFns 5 1 12 j (([1] : List ℚ).getD j 0) r').1 ∧
            ((synthesizeRadiosityPulses stubFns 5 [1] 1 12 (1 / 2)
                ⟨fun _ => 1 / 2, 0⟩).1.filter
                (fun q => decide ((j : ℚ) * 1 ≤ q.time ∧ q.time < ((j : ℚ) + 1) * 1))).length =
              max 1 (samplePoisson stubFns 5 (max (([1] : List ℚ).getD j 0 * 12) 0) r').1) :=
  ⟨by norm_num, fun n => by norm_num [Rng.next],
    c5_pulse_synthesis.2.1 stubFns 5 [1] 1 12 (1 / 2) ⟨fun _ => 1 / 2, 0⟩ (by norm_num)
      (fun n => by norm_num)⟩

theorem lookup_map_snd {β γ : Type} (g : β → γ) (xs : List (ℚ × β)) (b : ℚ) (y : γ)
    (h : (xs.map (fun fh => (fh.1, g fh.2))).lookup b = some y) :
    ∃ x, xs.lookup b = some x ∧ y = g x := by
  induction xs with
  | nil => simp at h
  | cons x xs ih =>
    rcases x with ⟨k, v⟩
    by_cases hbk : b = k
    · subst hbk
      rw [List.map_cons, lookup_cons_self] at h
      exact ⟨v, lookup_cons_self b v xs, (Option.some.inj h).symm⟩
    · rw [List.map_cons, lookup_cons_of_ne _ _ _ _ hbk] at h
      obtain ⟨x, hx, hy⟩ := ih h
      exact ⟨x, by rw [lookup_cons_of_ne _ _ _ _ hbk]; exact hx, hy⟩

/-- After the worker's clamping, the histogram always has at least one bin. -/
theorem rrBins_pos (o : RROverrides) :
    0 < ((⌈(normalizeWorkerRR o).maxTime / (normalizeWorkerRR o).histogramResolution⌉ : ℤ)).toNat := by
  have hhr : (0 : ℚ) < (normalizeWorkerRR o).histogramResolution := by
    have : (0 : ℚ) < 1 / 10000 := by norm_num
    exact lt_max_of_lt_left this
  have hmt : (normalizeWorkerRR o).histogramResolution ≤ (normalizeWorkerRR o).maxTime :=
    le_max_left _ _
  have h1 : (0 : ℚ) < (normalizeWorkerRR o).maxTime / (normalizeWorkerRR o).histogramResolution :=
    div_pos (lt_of_lt_of_le hhr hmt) hhr
  have h2 : (0 : ℤ) < ⌈(normalizeWorkerRR o).maxTime / (normalizeWorkerRR o).histogramResolution⌉ :=
    Int.ceil_pos.mpr h1
  omega

/-- C6 (amended): when the radiosity tail is enabled, every band's arrival
list in the complete result is sorted ascending by time (the worker sorts
each band after pulse synthesis); when the tail is disabled the worker skips
the sort and delivers the lists in collection order. -/
theorem c6_sorted_when_rr_enabled :
    ∀ (G : Geom) (F : RealFns) (seedFn : String → ℕ → ℚ) (fuel : ℕ) (p : SimParams)
      (ambient : ℕ → ℚ) (b : ℚ) (l : List Arrival),
      (normalizeWorkerRR p.rrOverrides).enabled = true →
      (runSimulation G F seedFn fuel p ambient).arrivalsByBand.lookup b = some l →
      List.Sorted timeLE l := by
  intro G F seedFn fuel p ambient b l hen hl
  have hbins := rrBins_pos p.rrOverrides
  simp only [runSimulation, hen, if_true, Bool.true_and, hbins, decide_true_eq_true,
    decide_eq_true_eq] at hl
  obtain ⟨l0, _, hl0⟩ := lookup_map_snd sortByTime _ b l hl
  rw [hl0]
  exact List.sorted_insertionSort timeLE l0

/-- C6 witness: a zero-ray run with the radiosity tail enabled delivers the
empty, trivially sorted arrival list for its single band. -/
theorem c6_witness :
    (normalizeWorkerRR paramsNoRays.rrOverrides).enabled = true
    ∧ (runSimulation geomTwoSided stubFns stubSeed 3 paramsNoRays
        ambHi).arrivalsByBand.lookup 100 = some []
    ∧ List.Sorted timeLE [] := by
  have h1 : (normalizeWorkerRR paramsNoRays.rrOverrides).enabled = true := rfl
  have h2 : (runSimulation geomTwoSided stubFns stubSeed 3 paramsNoRays
      ambHi).arrivalsByBand.lookup 100 = some [] := by
    norm_num [runSimulation, rayPhase, rayGo, traceRay, bounceLoop, emitDirection, Rng.next,
      ambHi, normalizeE, ratSqrt, normSq, vdot, smul, vadd, vsub, vreflect, cross,
      pushArrivals, applyAbsorption, coeffOf, freqBandsOf, List.insertionSort,
      List.orderedInsert, normalizeWorkerRR, mergeRRConfig, paramsNoRays, geomTwoSided,
      stubFns, stubSeed, sortByTime, synthAll, synthesizeRadiosityPulses, synthGo, synthBin,
      samplePoisson, samplePoissonGo, emitPulses, radiosityStep, rrDistRx, rrInvDist,
      depositBand, depositCount, diffuseEnergy, piQ, lookup_cons_self, int_toNat_numeral]
  exact ⟨h1, h2, c6_sorted_when_rr_enabled geomTwoSided stubFns stubSeed 3 paramsNoRays
    ambHi 100 [] h1 h2⟩

/-- C6 counterexample: with the radiosity tail disabled the worker delivers
the complete result without sorting: two rays whose receiver hits arrive at
times 3/343 and then 1/343 yield a band list out of ascending order. -/
theorem c6_counterexample :
    (runSimulation geomTwoSided stubFns stubSeed 3 paramsTwoRays
        ambTwoRays).arrivalsByBand.lookup 100 = some [⟨3 / 343, 1⟩, ⟨1 / 343, 1⟩]
    ∧ ¬ List.Sorted timeLE [⟨3 / 343, 1⟩, ⟨1 / 343, 1⟩] := by
  constructor
  · norm_num [runSimulation, rayPhase, rayGo, traceRay, bounceLoop, emitDirection, Rng.next,
      ambTwoRays, normalizeE, ratSqrt, normSq, vdot, smul, vadd, vsub, vreflect, cross,
      pushArrivals, applyAbsorption, coeffOf, freqBandsOf, List.insertionSort,
      List.orderedInsert, normalizeWorkerRR, mergeRRConfig, paramsTwoRays, geomTwoSided,
      stubFns, stubSeed, sortByTime, synthAll, synthesizeRadiosityPulses, synthGo, synthBin,
      samplePoisson, samplePoissonGo, emitPulses, radiosityStep, rrDistRx, rrInvDist,
      depositBand, depositCount, diffuseEnergy, piQ, lookup_cons_self, int_toNat_numeral]
  · intro hs
    have h1 := List.rel_of_sorted_cons hs ⟨1 / 343, 1⟩ (by simp)
    norm_num [timeLE] at h1

/-- C1 (amended): with a non-empty seed the ray-tracing phase is
reproducible — the collected arrival lists and energy histograms do not
depend on the ambient stream — and with the radiosity tail disabled the
whole complete payload is reproducible.  (With the tail enabled the pulse
synthesis draws from the restored ambient Math.random, so the final lists
are not reproducible; and with an empty seed the worker never seeds at
all.) -/
theorem c1_seeded_determinism :
    ∀ (G : Geom) (F : RealFns) (seedFn : String → ℕ → ℚ) (p : SimParams)
      (amb1 amb2 : ℕ → ℚ), p.seed ≠ "" →
      (rayPhase G F seedFn p amb1).arrs = (rayPhase G F seedFn p amb2).arrs
      ∧ (rayPhase G F seedFn p amb1).hists = (rayPhase G F seedFn p amb2).hists
      ∧ ∀ fuel : ℕ, (normalizeWorkerRR p.rrOverrides).enabled = false →
          runSimulation G F seedFn fuel p amb1 = runSimulation G F seedFn fuel p amb2 := by
  intro G F seedFn p amb1 amb2 hseed
  have hphase : rayPhase G F seedFn p amb1 = rayPhase G F seedFn p amb2 := by
    simp only [rayPhase, if_neg hseed]
  refine ⟨by rw [hphase], by rw [hphase], ?_⟩
  intro fuel hen
  simp [runSimulation, hen, hphase]

/-- C1 witness: the amended determinism applied to a seeded two-ray request
with the tail off, on two ambient streams that would otherwise emit the rays
in opposite directions. -/
theorem c1_witness :
    paramsSeededOff.seed ≠ ""
    ∧ (normalizeWorkerRR paramsSeededOff.rrOverrides).enabled = false
    ∧ (rayPhase geomTwoSided stubFns stubSeed paramsSeededOff ambHi).arrs =
        (rayPhase geomTwoSided stubFns stubSeed paramsSeededOff ambLo).arrs
    ∧ runSimulation geomTwoSided stubFns stubSeed 3 paramsSeededOff ambHi =
        runSimulation geomTwoSided stubFns stubSeed 3 paramsSeededOff ambLo := by
  have hs : paramsSeededOff.seed ≠ "" := by decide
  have hoff : (normalizeWorkerRR paramsSeededOff.rrOverrides).enabled = false := rfl
  have h := c1_seeded_determinism geomTwoSided stubFns stubSeed paramsSeededOff ambHi ambLo hs
  exact ⟨hs, hoff, h.1, h.2.2 3 hoff⟩

/-- C1 counterexample: determinism fails as claimed.  With the empty seed
the worker leaves Math.random unseeded, and two ambient streams give
different per-band arrival lists even after sorting; moreover even with a
non-empty seed, once the radiosity tail synthesizes pulses the complete
payloads differ across ambient streams (the ray-phase histograms still
agree), because Math.random is restored to the ambient stream before
synthesis. -/
theorem c1_counterexample :
    ((runSimulation geomTwoSided stubFns stubSeed 3 paramsOneRay ambHi).arrivalsByBand.map
        (fun fl => (fl.1, sortByTime fl.2)) ≠
      (runSimulation geomTwoSided stubFns stubSeed 3 paramsOneRay ambLo).arrivalsByBand.map
        (fun fl => (fl.1, sortByTime fl.2)))
    ∧ paramsOneRay.seed = ""
    ∧ runSimulation geomWall stubFns stubSeed 10 paramsSeeded ambQuarter ≠
        runSimulation geomWall stubFns stubSeed 10 paramsSeeded ambThreeQ
    ∧ paramsSeeded.seed = "x"
    ∧ (rayPhase geomWall stubFns stubSeed paramsSeeded ambQuarter).hists =
        (rayPhase geomWall stubFns stubSeed paramsSeeded ambThreeQ).hists := by
  refine ⟨?_, rfl, ?_, rfl, ?_⟩
  · intro h
    norm_num [runSimulation, rayPhase, rayGo, traceRay, bounceLoop, emitDirection, Rng.next,
      ambHi, ambLo, normalizeE, ratSqrt, normSq, vdot, smul, vadd, vsub, vreflect, cross,
      pushArrivals, applyAbsorption, coeffOf, freqBandsOf, List.insertionSort,
      List.orderedInsert, normalizeWorkerRR, mergeRRConfig, paramsOneRay, geomTwoSided,
      stubFns, stubSeed, sortByTime, synthAll, synthesizeRadiosityPulses, synthGo, synthBin,
      samplePoisson, samplePoissonGo, emitPulses, radiosityStep, rrDistRx, rrInvDist,
      depositBand, depositCount, diffuseEnergy, piQ, lookup_cons_self, int_toNat_numeral] at h
  · intro h
    norm_num [runSimulation, rayPhase, rayGo, traceRay, bounceLoop, emitDirection, Rng.next,
      ambQuarter, ambThreeQ, normalizeE, ratSqrt, normSq, vdot, smul, vadd, vsub, vreflect,
      cross, pushArrivals, applyAbsorption, coeffOf, freqBandsOf, List.insertionSort,
      List.orderedInsert, normalizeWorkerRR, mergeRRConfig, paramsSeeded, geomWall,
      stubFns, stubSeed, sortByTime, synthAll, synthesizeRadiosityPulses, synthGo, synthBin,
      samplePoisson, samplePoissonGo, emitPulses, radiosityStep, rrDistRx, rrInvDist,
      depositBand, depositCount, diffuseEnergy, piQ, lookup_cons_self, int_toNat_numeral,
      seed_x_ne_empty] at h
  · norm_num [rayPhase, rayGo, traceRay, bounceLoop, emitDirection, Rng.next,
      ambQuarter, ambThreeQ, normalizeE, ratSqrt, normSq, vdot, smul, vadd, vsub, vreflect,
      cross, pushArrivals, applyAbsorption, coeffOf, freqBandsOf, List.insertionSort,
      List.orderedInsert, normalizeWorkerRR, mergeRRConfig, paramsSeeded, geomWall,
      stubFns, stubSeed, radiosityStep, rrDistRx, rrInvDist,
      depositBand, depositCount, diffuseEnergy, piQ, lookup_cons_self, int_toNat_numeral,
      seed_x_ne_empty]

/-- A real quadratic with positive leading coefficient has a nonnegative
root iff its discriminant is nonnegative and the constant term is nonpositive
or the linear coefficient is nonpositive. -/
theorem quad_forward_root (A B C : ℚ) (hA : 0 < A) :
    (∃ t : ℝ, 0 ≤ t ∧ (A : ℝ) * t ^ 2 + (B : ℝ) * t + (C : ℝ) = 0) ↔
      (0 ≤ B ^ 2 - 4 * A * C ∧ (C ≤ 0 ∨ B ≤ 0)) := by
  have hA' : (0 : ℝ) < (A : ℝ) := by exact_mod_cast hA
  constructor
  · rintro ⟨t, ht0, hroot⟩
    constructor
    · have hsq : ((B : ℝ) ^ 2 - 4 * (A : ℝ) * (C : ℝ)) = (2 * (A : ℝ) * t + (B : ℝ)) ^ 2 := by
        nlinarith [hroot]
      have h0 : (0 : ℝ) ≤ ((B : ℝ) ^ 2 - 4 * (A : ℝ) * (C : ℝ)) := by
        rw [hsq]; positivity
      have h1 : ((B ^ 2 - 4 * A * C : ℚ) : ℝ) = (B : ℝ) ^ 2 - 4 * (A : ℝ) * (C : ℝ) := by
        push_cast; ring
      rw [← h1] at h0
      exact_mod_cast h0
    · by_contra hcon
      push_neg at hcon
      obtain ⟨hC, hB⟩ := hcon
      have hC' : (0 : ℝ) < (C : ℝ) := by exact_mod_cast hC
      have hB' : (0 : ℝ) < (B : ℝ) := by exact_mod_cast hB
      nlinarith [hroot, ht0, hA', mul_nonneg (mul_nonneg hA'.le ht0) ht0]
  · rintro ⟨hdisc, hor⟩
    have hdisc' : (0 : ℝ) ≤ (B : ℝ) ^ 2 - 4 * (A : ℝ) * (C : ℝ) := by
      have h1 : ((B ^ 2 - 4 * A * C : ℚ) : ℝ) = (B : ℝ) ^ 2 - 4 * (A : ℝ) * (C : ℝ) := by
        push_cast; ring
      rw [← h1]
      exact_mod_cast hdisc
    have hs0 : 0 ≤ Real.sqrt ((B : ℝ) ^ 2 - 4 * (A : ℝ) * (C : ℝ)) := Real.sqrt_nonneg _
    have hss : Real.sqrt ((B : ℝ) ^ 2 - 4 * (A : ℝ) * (C : ℝ)) ^ 2 =
        (B : ℝ) ^ 2 - 4 * (A : ℝ) * (C : ℝ) := Real.sq_sqrt hdisc'
    refine ⟨(-(B : ℝ) + Real.sqrt ((B : ℝ) ^ 2 - 4 * (A : ℝ) * (C : ℝ))) / (2 * (A : ℝ)),
      ?_, ?_⟩
    · have hnum : 0 ≤ -(B : ℝ) + Real.sqrt ((B : ℝ) ^ 2 - 4 * (A : ℝ) * (C : ℝ)) := by
        rcases hor with hC | hB
        · have hC' : (C : ℝ) ≤ 0 := by exact_mod_cast hC
          have h1 : (B : ℝ) ^ 2 ≤ Real.sqrt ((B : ℝ) ^ 2 - 4 * (A : ℝ) * (C : ℝ)) ^ 2 := by
            rw [hss]; nlinarith
          nlinarith [hs0, h1]
        · have hB' : (B : ℝ) ≤ 0 := by exact_mod_cast hB
          linarith
      positivity
    · have key : ∀ t : ℝ, (A : ℝ) * t ^ 2 + (B : ℝ) * t + (C : ℝ) =
          ((2 * (A : ℝ) * t + (B : ℝ)) ^ 2 - ((B : ℝ) ^ 2 - 4 * (A : ℝ) * (C : ℝ))) /
            (4 * (A : ℝ)) := by
        intro t
        field_simp
        ring
      rw [key]
      have ht : 2 * (A : ℝ) *
          ((-(B : ℝ) + Real.sqrt ((B : ℝ) ^ 2 - 4 * (A : ℝ) * (C : ℝ))) / (2 * (A : ℝ)))
            + (B : ℝ) = Real.sqrt ((B : ℝ) ^ 2 - 4 * (A : ℝ) * (C : ℝ)) := by
        field_simp
      rw [ht, hss]
      simp

theorem sphereB_eq (o d c0 : Vec3) : sphereB o d c0 = -(2 * vdot d (vsub c0 o)) := by
  simp only [sphereB, vdot, vsub]
  ring

theorem sphereC_eq (o c0 : Vec3) (r : ℚ) : sphereC o c0 r = normSq (vsub c0 o) - r * r := by
  simp only [sphereC, normSq, vdot, vsub]
  ring

/-- The executable receiver test agrees with the forward-restricted
closest-approach criterion with a non-strict inequality. -/
theorem receiverTest_iff_closestApproach (o d c0 : Vec3) (r : ℚ) (hd : 0 < normSq d) :
    (receiverTest o d c0 r = true) ↔ closestApproachSq o d c0 ≤ r * r := by
  have hA : sphereA d = normSq d := rfl
  simp only [receiverTest, Bool.and_eq_true, Bool.or_eq_true, decide_eq_true_eq]
  rw [sphereB_eq, sphereC_eq, hA]
  simp only [closestApproachSq]
  by_cases hm : 0 ≤ vdot d (vsub c0 o)
  · rw [if_pos hm]
    constructor
    · rintro ⟨hdisc, _⟩
      have h1 : 4 * normSq d * (normSq (vsub c0 o) - r * r) ≤
          4 * (vdot d (vsub c0 o)) ^ 2 := by nlinarith [hdisc]
      have h2 : normSq (vsub c0 o) - r * r ≤
          vdot d (vsub c0 o) * vdot d (vsub c0 o) / normSq d := by
        rw [le_div_iff₀ hd]
        nlinarith [h1]
      linarith
    · intro hle
      have h2 : normSq (vsub c0 o) - r * r ≤
          vdot d (vsub c0 o) * vdot d (vsub c0 o) / normSq d := by linarith
      rw [le_div_iff₀ hd] at h2
      exact ⟨by nlinarith [h2], Or.inr (by linarith [hm])⟩
  · rw [if_neg hm]
    push_neg at hm
    constructor
    · rintro ⟨hdisc, hor⟩
      rcases hor with hC | hB
      · linarith
      · nlinarith [hm]
    · intro hle
      refine ⟨by nlinarith [hm, hle, hd], Or.inl (by linarith)⟩

/-- The executable receiver test agrees with the real-root semantics of the
nearest forward ray/sphere intersection. -/
theorem receiverTest_iff_meets (o d c0 : Vec3) (r : ℚ) (hd : 0 < normSq d) :
    (receiverTest o d c0 r = true) ↔ RaySphereMeets o d c0 r := by
  have hA : (0 : ℚ) < sphereA d := hd
  rw [RaySphereMeets, quad_forward_root (sphereA d) (sphereB o d c0) (sphereC o c0 r) hA]
  simp only [receiverTest, Bool.and_eq_true, Bool.or_eq_true, decide_eq_true_eq]

/-- C7 (amended): for every ray with a nonzero direction, the spec-modelled
receiver test reports a hit exactly when a forward real intersection with
the sphere exists, equivalently exactly when the forward-restricted
closest-approach distance is at most (not strictly less than) the receiver
radius. -/
theorem c7_receiver_test :
    ∀ (o d c0 : Vec3) (r : ℚ), 0 < normSq d →
      ((receiverTest o d c0 r = true ↔ RaySphereMeets o d c0 r)
        ∧ (receiverTest o d c0 r = true ↔ closestApproachSq o d c0 ≤ r * r)) :=
  fun o d c0 r hd => ⟨receiverTest_iff_meets o d c0 r hd,
    receiverTest_iff_closestApproach o d c0 r hd⟩

/-- C7 witness: the theorem applied to a tangent ray — origin (-2, 1, 0),
direction (1, 0, 0), unit sphere at the origin. -/
theorem c7_witness :
    (0 : ℚ) < normSq ⟨1, 0, 0⟩ ∧
      ((receiverTest ⟨-2, 1, 0⟩ ⟨1, 0, 0⟩ ⟨0, 0, 0⟩ 1 = true ↔
          RaySphereMeets ⟨-2, 1, 0⟩ ⟨1, 0, 0⟩ ⟨0, 0, 0⟩ 1)
        ∧ (receiverTest ⟨-2, 1, 0⟩ ⟨1, 0, 0⟩ ⟨0, 0, 0⟩ 1 = true ↔
          closestApproachSq ⟨-2, 1, 0⟩ ⟨1, 0, 0⟩ ⟨0, 0, 0⟩ ≤ 1 * 1)) := by
  have hd : (0 : ℚ) < normSq ⟨1, 0, 0⟩ := by norm_num [normSq, vdot]
  exact ⟨hd, c7_receiver_test ⟨-2, 1, 0⟩ ⟨1, 0, 0⟩ ⟨0, 0, 0⟩ 1 hd⟩

/-- C7 counterexample: the claim's strict inequality fails at grazing
incidence.  The tangent ray from (-2, 1, 0) along (1, 0, 0) against the unit
sphere at the origin has closest-approach distance exactly the radius, yet
the nearest ray/sphere intersection exists (the test reports a hit), so the
test is not equivalent to closest-approach strictly below the radius. -/
theorem c7_counterexample :
    ¬ ∀ (o d c0 : Vec3) (r : ℚ), 0 < normSq d → 0 < r →
        (receiverTest o d c0 r = true ↔ closestApproachSq o d c0 < r * r) := by
  intro h
  have hx := h ⟨-2, 1, 0⟩ ⟨1, 0, 0⟩ ⟨0, 0, 0⟩ 1 (by norm_num [normSq, vdot]) (by norm_num)
  have htest : receiverTest ⟨-2, 1, 0⟩ ⟨1, 0, 0⟩ ⟨0, 0, 0⟩ 1 = true := by
    norm_num [receiverTest, sphereA, sphereB, sphereC, normSq, vdot, vsub]
  have hca : ¬ closestApproachSq ⟨-2, 1, 0⟩ ⟨1, 0, 0⟩ ⟨0, 0, 0⟩ < 1 * 1 := by
    norm_num [closestApproachSq, normSq, vdot, vsub]
  exact hca (hx.mp htest)

/-- C9 counterexample: the claim's tap formula, read literally with the band
edges in hertz inside the sinc numerator, disagrees with the code.  With
257 shrunk to 5 taps, edges 1 Hz and 3 Hz and a 10 Hz rate, the claimed
formula vanishes at every off-center tap (the sines of whole multiples of
2 pi are zero) while the code's tap at n = 1 is (sin(3 pi/5) -
sin(pi/5))/pi times the Hann weight 1/2, which is positive. -/
theorem c9_counterexample :
    ¬ ∀ n : ℕ, firwinTap Real.sin Real.cos Real.pi 5 1 3 10 n =
        specFirTapHz Real.sin Real.cos Real.pi 5 1 3 10 n := by
  intro h
  have h1 := h 1
  have hpi := Real.pi_pos
  have hR : specFirTapHz Real.sin Real.cos Real.pi 5 (1 : ℝ) 3 10 1 = 0 := by
    simp only [specFirTapHz, hannWindow]
    rw [if_neg (by norm_num)]
    rw [show (2 : ℝ) * Real.pi * 3 * ((1 : ℕ) - ((5 - 1 : ℕ) : ℝ) / 2) =
        ((-6 : ℤ) : ℝ) * Real.pi by push_cast; ring]
    rw [show (2 : ℝ) * Real.pi * 1 * ((1 : ℕ) - ((5 - 1 : ℕ) : ℝ) / 2) =
        ((-2 : ℤ) : ℝ) * Real.pi by push_cast; ring]
    rw [Real.sin_int_mul_pi, Real.sin_int_mul_pi]
    simp
  have hL : firwinTap Real.sin Real.cos Real.pi 5 (1 : ℝ) 3 10 1 ≠ 0 := by
    simp only [firwinTap, hannWindow]
    rw [if_neg (by norm_num)]
    rw [show (2 : ℝ) * Real.pi * (3 / 10) * ((1 : ℕ) - ((5 - 1 : ℕ) : ℝ) / 2) =
        -(3 * Real.pi / 5) by push_cast; ring]
    rw [show (2 : ℝ) * Real.pi * (1 / 10) * ((1 : ℕ) - ((5 - 1 : ℕ) : ℝ) / 2) =
        -(Real.pi / 5) by push_cast; ring]
    rw [show (2 : ℝ) * Real.pi * ((1 : ℕ) : ℝ) / (((5 : ℕ) : ℝ) - 1) = Real.pi / 2 by
      push_cast; ring]
    rw [Real.cos_pi_div_two, Real.sin_neg, Real.sin_neg]
    have hs : Real.sin (3 * Real.pi / 5) = Real.sin (2 * Real.pi / 5) := by
      rw [← Real.sin_pi_sub]
      congr 1
      ring
    have hmem1 : Real.pi / 5 ∈ Set.Icc (-(Real.pi / 2)) (Real.pi / 2) := by
      constructor <;> nlinarith [hpi]
    have hmem2 : 2 * Real.pi / 5 ∈ Set.Icc (-(Real.pi / 2)) (Real.pi / 2) := by
      constructor <;> nlinarith [hpi]
    have hlt : Real.sin (Real.pi / 5) < Real.sin (2 * Real.pi / 5) :=
      Real.strictMonoOn_sin hmem1 hmem2 (by nlinarith [hpi])
    have hnum : -Real.sin (3 * Real.pi / 5) - -Real.sin (Real.pi / 5) ≠ 0 := by
      rw [hs]
      intro h0
      apply absurd hlt
      intro hcon
      nlinarith [h0, hcon]
    have hden : Real.pi * ((1 : ℕ) - ((5 - 1 : ℕ) : ℝ) / 2) ≠ 0 := by
      push_cast
      intro h0
      nlinarith [hpi, h0]
    have hw : (1 : ℝ) / 2 * (1 - 0) ≠ 0 := by norm_num
    exact mul_ne_zero (div_ne_zero hnum hden) hw
  exact hL (h1.trans hR)

/-- C9 (amended): firwinBandpass returns the Hann-windowed sinc taps with
the band edges normalized by the sample rate inside the sinc numerator
(h with sin of 2 pi (f/f_s) k, and center tap 2 (f_high - f_low)/f_s),
divided by the coefficient sum, so the returned kernel sums to one (unity
DC gain) whenever the raw tap sum is nonzero; the call-site band edges are
f_low = max(20, f_c - f_c/2) and f_high = min(f_s/2 - 1, f_c + f_c/2). -/
theorem c9_fir_kernel :
    (∀ (K : Type) [Field K] (sinK cosK : K → K) (piK : K) (numTaps : ℕ)
        (fLow fHigh fs : K) (n : ℕ),
        firwinTap sinK cosK piK numTaps fLow fHigh fs n =
          specFirTapNorm sinK cosK piK numTaps fLow fHigh fs n)
    ∧ (∀ (K : Type) [Field K] (sinK cosK : K → K) (piK : K) (numTaps : ℕ)
        (fLow fHigh fs : K),
        ((List.range numTaps).map (firwinTap sinK cosK piK numTaps fLow fHigh fs)).sum ≠ 0 →
        (firwinBandpass sinK cosK piK numTaps fLow fHigh fs).sum = 1)
    ∧ ∀ fs fc : ℚ, bandEdges fs fc = (max 20 (fc - fc / 2), min (fs / 2 - 1) (fc + fc / 2)) := by
  refine ⟨?_, ?_, ?_⟩
  · intro K _ sinK cosK piK numTaps fLow fHigh fs n
    simp only [firwinTap, specFirTapNorm]
    congr 1
    split
    · ring
    · rfl
  · intro K _ sinK cosK piK numTaps fLow fHigh fs hsum
    simp only [firwinBandpass]
    rw [sum_map_div]
    exact div_self hsum
  · intro fs fc
    simp only [bandEdges, max_comm, min_comm]

/-- C9 witness: the sum-to-one normalization evaluated at three taps over
the rationals with stand-in trigonometric functions. -/
theorem c9_witness :
    ((List.range 3).map (firwinTap (fun _ => (0 : ℚ)) (fun _ => -1) 1 3 1 3 10)).sum ≠ 0
    ∧ (firwinBandpass (fun _ => (0 : ℚ)) (fun _ => -1) 1 3 1 3 10).sum = 1 := by
  have hsum : ((List.range 3).map (firwinTap (fun _ => (0 : ℚ)) (fun _ => -1) 1 3 1 3 10)).sum ≠ 0 := by
    norm_num [firwinTap, hannWindow, List.range_succ]
  exact ⟨hsum, c9_fir_kernel.2.1 ℚ (fun _ => 0) (fun _ => -1) 1 3 1 3 10 hsum⟩

/-- C10: an empty arrival list yields a buffer of exactly one zero sample,
bypassing the duration rule; for a non-empty list the buffer length follows
the duration rule max(max-time + 0.5 s, 1 s), hence is at least one second
of samples. -/
theorem c10_empty_ir_buffer :
    (∀ sampleRate : ℚ, createIRAudioBuffer [] sampleRate = [0])
    ∧ ∀ (arrivals : List Arrival) (sampleRate : ℚ), arrivals ≠ [] → 0 ≤ sampleRate →
        (createIRAudioBuffer arrivals sampleRate).length =
          ((⌈max ((arrivals.foldl (fun m a => max m a.time) 0) + 1 / 2) 1 * sampleRate⌉ : ℤ)).toNat
        ∧ ((⌈sampleRate⌉ : ℤ)).toNat ≤ (createIRAudioBuffer arrivals sampleRate).length := by
  constructor
  · intro sampleRate; rfl
  · intro arrivals sampleRate hne hfs
    have hlen : (createIRAudioBuffer arrivals sampleRate).length =
        ((⌈max ((arrivals.foldl (fun m a => max m a.time) 0) + 1 / 2) 1 * sampleRate⌉ : ℤ)).toNat := by
      simp only [createIRAudioBuffer, if_neg hne]
      split
      · rw [List.length_map, foldl_placeArrival_length, List.length_replicate]
      · rw [foldl_placeArrival_length, List.length_replicate]
    refine ⟨hlen, ?_⟩
    rw [hlen]
    have h1 : (1 : ℚ) ≤ max ((arrivals.foldl (fun m a => max m a.time) 0) + 1 / 2) 1 :=
      le_max_right _ _
    have h2 : sampleRate ≤ max ((arrivals.foldl (fun m a => max m a.time) 0) + 1 / 2) 1 * sampleRate :=
      le_mul_of_one_le_left hfs h1
    exact Int.toNat_le_toNat (Int.ceil_le_ceil h2)

/-- C10 witness: a single arrival at a quarter sample before sample 1 with a
two-hertz rate gives a two-sample buffer, at least the one-second minimum. -/
theorem c10_witness :
    ([⟨(1 : ℚ) / 8, 1⟩] : List Arrival) ≠ []
    ∧ (0 : ℚ) ≤ 2
    ∧ (createIRAudioBuffer [⟨1 / 8, 1⟩] 2).length =
        ((⌈max ((([⟨(1 : ℚ) / 8, 1⟩] : List Arrival).foldl (fun m a => max m a.time) 0) + 1 / 2) 1 * 2⌉ : ℤ)).toNat
    ∧ ((⌈(2 : ℚ)⌉ : ℤ)).toNat ≤ (createIRAudioBuffer [⟨1 / 8, 1⟩] 2).length := by
  refine ⟨by simp, by norm_num, ?_, ?_⟩
  · exact (c10_empty_ir_buffer.2 [⟨1 / 8, 1⟩] 2 (by simp) (by norm_num)).1
  · exact (c10_empty_ir_buffer.2 [⟨1 / 8, 1⟩] 2 (by simp) (by norm_num)).2

end Blobverb
